import Mathlib

/-!
Verification of the JourneyMAPS execution and caching engine.

This file gives a shallow embedding of the core of the repository
(`src/jmaps/journey/param.py`, `journey.py`, `io.py`, `jmalc.py`) and proves
or refutes the frozen claims about it.

Modelling conventions:
* Python values that can appear in parameter trees are modelled by `Val`.
  Python `None` is `Val.vNone`.  Non-primitive Python objects (for instance a
  `JDict` returned by `JDict._get_value`, which returns `self`) are modelled
  by the opaque constructor `Val.vObj` carrying a tag; no claim in scope
  depends on the contents of such objects.  The `float` and `datetime`
  primitive kinds of `jmalc.py` are not populated in the value universe since
  no claim exercises them; the casting functions are translated on the kinds
  that are populated.
* In-place mutation of the Python parameter tree is modelled by explicit
  state passing: every operation that mutates a tree returns the updated
  tree.  Python exceptions (KeyError, AttributeError, TypeError) are
  modelled by `Except Unit`.
* `Buffer.value` is `Any | None = None` in the source and the memo test is
  `if self.value is None`; accordingly the memo field is a plain `Val` where
  `Val.vNone` is exactly the Python `None` state.
* A `Buffer.var` callable is represented by its name; evaluation is
  parameterised by an interpretation `Interp` mapping a name and evaluated
  keyword arguments to a result value.
* `Refer.jparam : JParam | None` is modelled by two constructors
  (`referNone` / `referSome`) so that all recursion stays structural.
-/

set_option autoImplicit false

namespace JMaps

/-- Python values stored in parameter trees. -/
inductive Val where
  | vNone : Val
  | vBool (b : Bool) : Val
  | vInt (n : Int) : Val
  | vStr (s : String) : Val
  | vObj (tag : String) : Val
deriving DecidableEq

/-- SQL-serializable primitives as produced by `jmalc.cast_sql_type`. -/
inductive SqlVal where
  | sBool (b : Bool) : SqlVal
  | sInt (n : Int) : SqlVal
  | sStr (s : String) : SqlVal
deriving DecidableEq

/-- The `dtype` callables used by `JValue`/`XBuffer` (`int`, `str`, `bool`). -/
inductive Dtype where
  | dInt : Dtype
  | dStr : Dtype
  | dBool : Dtype
deriving DecidableEq

/-- `dtype.__name__`. -/
def dtypeName : Dtype → String
  | .dInt => "int"
  | .dStr => "str"
  | .dBool => "bool"

/-- Python `str()` on the modelled value universe. -/
def pyStr : Val → String
  | .vNone => "None"
  | .vBool true => "True"
  | .vBool false => "False"
  | .vInt n => toString n
  | .vStr s => s
  | .vObj tag => tag

/-- Python truthiness (`bool()`) on the modelled value universe. -/
def pyTruthy : Val → Bool
  | .vNone => false
  | .vBool b => b
  | .vInt n => n != 0
  | .vStr s => s != ""
  | .vObj _ => true

/-- Applying a `dtype` callable to a value.  `int()` raises on values it
cannot convert; `str()` and `bool()` are total. -/
def applyDtype : Dtype → Val → Except Unit SqlVal
  | .dInt, .vInt n => .ok (.sInt n)
  | .dInt, .vBool b => .ok (.sInt (if b then 1 else 0))
  | .dInt, _ => .error ()
  | .dStr, v => .ok (.sStr (pyStr v))
  | .dBool, v => .ok (.sBool (pyTruthy v))

/-- `jmalc.cast_sql_type` on the modelled value kinds: `bool` and `int` pass
through, `str` passes through, anything else raises `TypeError`. -/
def castSqlType : Val → Except Unit SqlVal
  | .vBool b => .ok (.sBool b)
  | .vInt n => .ok (.sInt n)
  | .vStr s => .ok (.sStr s)
  | _ => .error ()

/-- `jmalc.get_sql_type` on the modelled value kinds. -/
def getSqlType : Val → Except Unit String
  | .vBool _ => .ok "bool"
  | .vInt _ => .ok "int"
  | .vStr _ => .ok "str"
  | _ => .error ()

/-- Reduction of the error monad's bind on a success. -/
theorem exceptOkBind {α β : Type} (a : α) (f : α → Except Unit β) :
    (Except.ok a >>= f) = f a := rfl

/-- Reduction of the error monad's bind on a failure. -/
theorem exceptErrorBind {α β : Type} (e : Unit) (f : α → Except Unit β) :
    ((Except.error e : Except Unit α) >>= f) = Except.error e := rfl

/-- `param.ResetCondition`. -/
inductive ResetCondition where
  | NEVER : ResetCondition
  | ON_RUN : ResetCondition
  | ON_RUN_IF_PARENT_PATH : ResetCondition
deriving DecidableEq

mutual

/-- The parameter tree (`param.JParam` and its concrete subclasses).
`buffer` covers both `Buffer` and `YBuffer` (which adds no behaviour);
`xbuffer` is `XBuffer`.  `referNone`/`referSome` are `Refer` with
`jparam = None` (unresolved) respectively `jparam` set. -/
inductive JParam where
  | jvalue (used : Bool) (value : Val) (dtype : Option Dtype) : JParam
  | jdict (used : Bool) (data : JEntries) : JParam
  | invisible (used : Bool) (jparam : JParam) : JParam
  | buffer (used : Bool) (varName : String) (rc : ResetCondition) (value : Val)
      (data : JEntries) : JParam
  | xbuffer (used : Bool) (varName : String) (rc : ResetCondition) (value : Val)
      (dtype : Option Dtype) (data : JEntries) : JParam
  | referNone (used : Bool) (refs : List String) : JParam
  | referSome (used : Bool) (refs : List String) (target : JParam) : JParam

/-- The ordered `data : Dict[str, JParam]` of a `JDict`/`Buffer`. -/
inductive JEntries where
  | nil : JEntries
  | cons (key : String) (val : JParam) (rest : JEntries) : JEntries

end

namespace JEntries

/-- Keys of the entry list, in insertion order. -/
def keysE : JEntries → List String
  | .nil => []
  | .cons k _ rest => k :: keysE rest

/-- `data[k]` lookup (first match). -/
def lookupE (k : String) : JEntries → Option JParam
  | .nil => none
  | .cons k2 v rest => if k2 = k then some v else lookupE k rest

/-- Membership test for a key. -/
def hasKey (k : String) (e : JEntries) : Bool :=
  (lookupE k e).isSome

/-- Build from a list of pairs. -/
def ofList : List (String × JParam) → JEntries
  | [] => .nil
  | (k, v) :: rest => .cons k v (ofList rest)

/-- `data[k] = v` with Python `dict` semantics: replace in place if the key
exists, otherwise append at the end. -/
def setE (k : String) (v : JParam) : JEntries → JEntries
  | .nil => .cons k v .nil
  | .cons k2 v2 rest => if k2 = k then .cons k2 v rest else .cons k2 v2 (setE k v rest)

/-- Whether all keys are pairwise distinct (always true of a Python dict). -/
def nodupKeys : JEntries → Bool
  | .nil => true
  | .cons k _ rest => !hasKey k rest && nodupKeys rest

end JEntries

deriving instance DecidableEq for JParam, JEntries

/-- `used` flag of a node. -/
def JParam.usedOf : JParam → Bool
  | .jvalue u _ _ => u
  | .jdict u _ => u
  | .invisible u _ => u
  | .buffer u _ _ _ _ => u
  | .xbuffer u _ _ _ _ _ => u
  | .referNone u _ => u
  | .referSome u _ _ => u

/-- Memo field of a `Buffer`/`XBuffer` (`Val.vNone` when unset). -/
def JParam.memoOf : JParam → Option Val
  | .buffer _ _ _ v _ => some v
  | .xbuffer _ _ _ v _ _ => some v
  | _ => none

/-- Top-level keys of a dict-rooted tree. -/
def JParam.topKeysJ : JParam → List String
  | .jdict _ d => d.keysE
  | .buffer _ _ _ _ d => d.keysE
  | .xbuffer _ _ _ _ _ d => d.keysE
  | _ => []

/-- Top-level entry lookup of a dict-rooted tree. -/
def JParam.lookupJ (p : JParam) (k : String) : Option JParam :=
  match p with
  | .jdict _ d => d.lookupE k
  | .buffer _ _ _ _ d => d.lookupE k
  | .xbuffer _ _ _ _ _ d => d.lookupE k
  | _ => none

/-- `data.values()` as a list of (present) children. -/
def JEntries.someListE : JEntries → List (Option JParam)
  | .nil => []
  | .cons _ v rest => some v :: JEntries.someListE rest

/-- `JParam._get_children` as seen by the generic tree walkers.  A `Refer`
returns `[self.jparam]`, so an unresolved `Refer` contributes a Python
`None` to the child list; this is the `none` element here. -/
def JParam.childrenO : JParam → List (Option JParam)
  | .jvalue _ _ _ => []
  | .jdict _ d => JEntries.someListE d
  | .invisible _ c => [some c]
  | .buffer _ _ _ _ d => JEntries.someListE d
  | .xbuffer _ _ _ _ _ d => JEntries.someListE d
  | .referNone _ _ => [none]
  | .referSome _ _ t => [some t]

mutual

/-- `JParam.reset_usage` (param.py lines 53-57): clear `used` on this node and
recurse into `_get_children()`.  On an unresolved `Refer` the child list is
`[None]` and `None.reset_usage()` raises `AttributeError`, modelled as
`.error ()`. -/
def JParam.resetUsage : JParam → Except Unit JParam
  | .jvalue _ v dt => .ok (.jvalue false v dt)
  | .jdict _ d => do
      let d2 ← JEntries.resetUsageE d
      .ok (.jdict false d2)
  | .invisible _ c => do
      let c2 ← JParam.resetUsage c
      .ok (.invisible false c2)
  | .buffer _ n rc v d => do
      let d2 ← JEntries.resetUsageE d
      .ok (.buffer false n rc v d2)
  | .xbuffer _ n rc v dt d => do
      let d2 ← JEntries.resetUsageE d
      .ok (.xbuffer false n rc v dt d2)
  | .referNone _ _ => .error ()
  | .referSome _ l t => do
      let t2 ← JParam.resetUsage t
      .ok (.referSome false l t2)

/-- `reset_usage` mapped over an entry list. -/
def JEntries.resetUsageE : JEntries → Except Unit JEntries
  | .nil => .ok .nil
  | .cons k v rest => do
      let v2 ← JParam.resetUsage v
      let rest2 ← JEntries.resetUsageE rest
      .ok (.cons k v2 rest2)

end

mutual

/-- All `used` flags in the tree are false. -/
def JParam.allUnusedB : JParam → Bool
  | .jvalue u _ _ => !u
  | .jdict u d => !u && JEntries.allUnusedE d
  | .invisible u c => !u && JParam.allUnusedB c
  | .buffer u _ _ _ d => !u && JEntries.allUnusedE d
  | .xbuffer u _ _ _ _ d => !u && JEntries.allUnusedE d
  | .referNone u _ => !u
  | .referSome u _ t => !u && JParam.allUnusedB t

/-- `allUnusedB` over an entry list. -/
def JEntries.allUnusedE : JEntries → Bool
  | .nil => true
  | .cons _ v rest => JParam.allUnusedB v && JEntries.allUnusedE rest

end

mutual

/-- Every `Refer` node in the tree has been resolved (its `jparam` is set).
True of every environment after a successful `init_run`. -/
def JParam.resolvedB : JParam → Bool
  | .jvalue _ _ _ => true
  | .jdict _ d => JEntries.resolvedE d
  | .invisible _ c => JParam.resolvedB c
  | .buffer _ _ _ _ d => JEntries.resolvedE d
  | .xbuffer _ _ _ _ _ d => JEntries.resolvedE d
  | .referNone _ _ => false
  | .referSome _ _ t => JParam.resolvedB t

/-- `resolvedB` over an entry list. -/
def JEntries.resolvedE : JEntries → Bool
  | .nil => true
  | .cons _ v rest => JParam.resolvedB v && JEntries.resolvedE rest

end

mutual

/-- `JParam.merge_usage` (param.py lines 79-85): OR the `used` flag with the
mirror's, then `zip` own children with the mirror's children and recurse
pairwise; `zip` silently drops surplus children on either side.  A Python
`None` appearing in either child list (an unresolved `Refer`) raises
`AttributeError` when the pair is visited, modelled as `.error ()`. -/
def JParam.mergeUsage : JParam → JParam → Except Unit JParam
  | .jvalue u v dt, m => .ok (.jvalue (u || m.usedOf) v dt)
  | .jdict u d, m => do
      let d2 ← JEntries.mergeUsageE d m.childrenO
      .ok (.jdict (u || m.usedOf) d2)
  | .invisible u c, m =>
      match m.childrenO with
      | [] => .ok (.invisible (u || m.usedOf) c)
      | none :: _ => .error ()
      | some mc :: _ => do
          let c2 ← JParam.mergeUsage c mc
          .ok (.invisible (u || m.usedOf) c2)
  | .buffer u n rc v d, m => do
      let d2 ← JEntries.mergeUsageE d m.childrenO
      .ok (.buffer (u || m.usedOf) n rc v d2)
  | .xbuffer u n rc v dt d, m => do
      let d2 ← JEntries.mergeUsageE d m.childrenO
      .ok (.xbuffer (u || m.usedOf) n rc v dt d2)
  | .referNone u l, m =>
      match m.childrenO with
      | [] => .ok (.referNone (u || m.usedOf) l)
      | _ :: _ => .error ()
  | .referSome u l t, m =>
      match m.childrenO with
      | [] => .ok (.referSome (u || m.usedOf) l t)
      | none :: _ => .error ()
      | some mc :: _ => do
          let t2 ← JParam.mergeUsage t mc
          .ok (.referSome (u || m.usedOf) l t2)

/-- `merge_usage` over a `zip` of own entries with the mirror's child list.
Surplus entries on either side are left untouched (zip truncation). -/
def JEntries.mergeUsageE : JEntries → List (Option JParam) → Except Unit JEntries
  | .nil, _ => .ok .nil
  | .cons k v rest, [] => .ok (.cons k v rest)
  | .cons _ _ _, none :: _ => .error ()
  | .cons k v rest, some m :: ms => do
      let v2 ← JParam.mergeUsage v m
      let rest2 ← JEntries.mergeUsageE rest ms
      .ok (.cons k v2 rest2)

end

mutual

/-- Specification-level merge as worded by the amended claim: OR the `used`
flags of positionally paired children and leave surplus children (those
present in only one tree) unchanged; total over all trees. -/
def JParam.mergeSpec : JParam → JParam → JParam
  | .jvalue u v dt, m => .jvalue (u || m.usedOf) v dt
  | .jdict u d, m => .jdict (u || m.usedOf) (JEntries.mergeSpecE d m.childrenO)
  | .invisible u c, m =>
      match m.childrenO with
      | some mc :: _ => .invisible (u || m.usedOf) (JParam.mergeSpec c mc)
      | _ => .invisible (u || m.usedOf) c
  | .buffer u n rc v d, m => .buffer (u || m.usedOf) n rc v (JEntries.mergeSpecE d m.childrenO)
  | .xbuffer u n rc v dt d, m =>
      .xbuffer (u || m.usedOf) n rc v dt (JEntries.mergeSpecE d m.childrenO)
  | .referNone u l, _m => .referNone (u || _m.usedOf) l
  | .referSome u l t, m =>
      match m.childrenO with
      | some mc :: _ => .referSome (u || m.usedOf) l (JParam.mergeSpec t mc)
      | _ => .referSome (u || m.usedOf) l t

/-- Positional pairing for `mergeSpec`. -/
def JEntries.mergeSpecE : JEntries → List (Option JParam) → JEntries
  | .nil, _ => .nil
  | .cons k v rest, [] => .cons k v rest
  | .cons k v rest, none :: ms => .cons k v (JEntries.mergeSpecE rest ms)
  | .cons k v rest, some m :: ms => .cons k (JParam.mergeSpec v m) (JEntries.mergeSpecE rest ms)

end

/-- Child lists arising from resolved trees: every element is present and
itself resolved. -/
def allSomeResolved : List (Option JParam) → Bool
  | [] => true
  | none :: _ => false
  | some c :: rest => JParam.resolvedB c && allSomeResolved rest

theorem someListE_allSomeResolved :
    ∀ d : JEntries, d.resolvedE = true → allSomeResolved d.someListE = true
  | .nil, _ => rfl
  | .cons k v rest, h => by
      simp only [JEntries.resolvedE, Bool.and_eq_true] at h
      simp only [JEntries.someListE, allSomeResolved, Bool.and_eq_true]
      exact ⟨h.1, someListE_allSomeResolved rest h.2⟩

theorem childrenO_allSomeResolved (m : JParam) (h : m.resolvedB = true) :
    allSomeResolved m.childrenO = true := by
  cases m with
  | jvalue u v dt => rfl
  | jdict u d => exact someListE_allSomeResolved d h
  | invisible u c =>
      simp only [JParam.childrenO, allSomeResolved, Bool.and_eq_true]
      exact ⟨h, trivial⟩
  | buffer u n rc v d => exact someListE_allSomeResolved d h
  | xbuffer u n rc v dt d => exact someListE_allSomeResolved d h
  | referNone u l => simp [JParam.resolvedB] at h
  | referSome u l t =>
      simp only [JParam.childrenO, allSomeResolved, Bool.and_eq_true]
      exact ⟨h, trivial⟩

mutual

/-- On a tree whose `Refer` nodes are all resolved, `reset_usage` terminates
normally and clears every `used` flag. -/
theorem JParam.resetUsage_resolved :
    ∀ p : JParam, p.resolvedB = true →
      ∃ q, p.resetUsage = Except.ok q ∧ q.allUnusedB = true
  | .jvalue _ v dt, _ => ⟨.jvalue false v dt, rfl, rfl⟩
  | .jdict _ d, h => by
      obtain ⟨e, he, hu⟩ := JEntries.resetUsageE_resolved d h
      exact ⟨.jdict false e, by simp only [JParam.resetUsage, he]; rfl,
        by simp [JParam.allUnusedB, hu]⟩
  | .invisible _ c, h => by
      obtain ⟨q, hq, hu⟩ := JParam.resetUsage_resolved c h
      exact ⟨.invisible false q, by simp only [JParam.resetUsage, hq]; rfl,
        by simp [JParam.allUnusedB, hu]⟩
  | .buffer _ n rc v d, h => by
      obtain ⟨e, he, hu⟩ := JEntries.resetUsageE_resolved d h
      exact ⟨.buffer false n rc v e, by simp only [JParam.resetUsage, he]; rfl,
        by simp [JParam.allUnusedB, hu]⟩
  | .xbuffer _ n rc v dt d, h => by
      obtain ⟨e, he, hu⟩ := JEntries.resetUsageE_resolved d h
      exact ⟨.xbuffer false n rc v dt e, by simp only [JParam.resetUsage, he]; rfl,
        by simp [JParam.allUnusedB, hu]⟩
  | .referNone _ l, h => by simp [JParam.resolvedB] at h
  | .referSome _ l t, h => by
      obtain ⟨q, hq, hu⟩ := JParam.resetUsage_resolved t h
      exact ⟨.referSome false l q, by simp only [JParam.resetUsage, hq]; rfl,
        by simp [JParam.allUnusedB, hu]⟩

/-- Entry-list form of `resetUsage_resolved`. -/
theorem JEntries.resetUsageE_resolved :
    ∀ d : JEntries, d.resolvedE = true →
      ∃ e, d.resetUsageE = Except.ok e ∧ e.allUnusedE = true
  | .nil, _ => ⟨.nil, rfl, rfl⟩
  | .cons k v rest, h => by
      simp only [JEntries.resolvedE, Bool.and_eq_true] at h
      obtain ⟨q, hq, hqu⟩ := JParam.resetUsage_resolved v h.1
      obtain ⟨e, he, heu⟩ := JEntries.resetUsageE_resolved rest h.2
      exact ⟨.cons k q e, by simp only [JEntries.resetUsageE, hq, he]; rfl,
        by simp [JEntries.allUnusedE, hqu, heu]⟩

end

mutual

/-- On resolved trees `merge_usage` never raises and computes the
specification-level positional merge. -/
theorem JParam.mergeUsage_eq_spec :
    ∀ a b : JParam, a.resolvedB = true → b.resolvedB = true →
      a.mergeUsage b = Except.ok (a.mergeSpec b)
  | .jvalue _ v dt, b, _, _ => rfl
  | .jdict _ d, b, ha, hb => by
      have h := JEntries.mergeUsageE_eq_spec d b.childrenO ha
        (childrenO_allSomeResolved b hb)
      simp only [JParam.mergeUsage, JParam.mergeSpec, h]; rfl
  | .invisible _ c, b, ha, hb => by
      have hc := childrenO_allSomeResolved b hb
      simp only [JParam.mergeUsage, JParam.mergeSpec]
      cases hb2 : b.childrenO with
      | nil => rfl
      | cons x rest =>
          rw [hb2] at hc
          cases x with
          | none => simp [allSomeResolved] at hc
          | some mc =>
              simp only [allSomeResolved, Bool.and_eq_true] at hc
              have h := JParam.mergeUsage_eq_spec c mc ha hc.1
              simp only [h]; rfl
  | .buffer _ n rc v d, b, ha, hb => by
      have h := JEntries.mergeUsageE_eq_spec d b.childrenO ha
        (childrenO_allSomeResolved b hb)
      simp only [JParam.mergeUsage, JParam.mergeSpec, h]; rfl
  | .xbuffer _ n rc v dt d, b, ha, hb => by
      have h := JEntries.mergeUsageE_eq_spec d b.childrenO ha
        (childrenO_allSomeResolved b hb)
      simp only [JParam.mergeUsage, JParam.mergeSpec, h]; rfl
  | .referNone _ l, b, ha, _ => by simp [JParam.resolvedB] at ha
  | .referSome _ l t, b, ha, hb => by
      have hc := childrenO_allSomeResolved b hb
      simp only [JParam.mergeUsage, JParam.mergeSpec]
      cases hb2 : b.childrenO with
      | nil => rfl
      | cons x rest =>
          rw [hb2] at hc
          cases x with
          | none => simp [allSomeResolved] at hc
          | some mc =>
              simp only [allSomeResolved, Bool.and_eq_true] at hc
              have h := JParam.mergeUsage_eq_spec t mc ha hc.1
              simp only [h]; rfl

/-- Entry-list form of `mergeUsage_eq_spec`. -/
theorem JEntries.mergeUsageE_eq_spec :
    ∀ (d : JEntries) (ms : List (Option JParam)), d.resolvedE = true →
      allSomeResolved ms = true →
      d.mergeUsageE ms = Except.ok (d.mergeSpecE ms)
  | .nil, _, _, _ => rfl
  | .cons k v rest, [], _, _ => rfl
  | .cons _ _ _, none :: _, _, hm => by simp [allSomeResolved] at hm
  | .cons k v rest, some m :: ms, hd, hm => by
      simp only [JEntries.resolvedE, Bool.and_eq_true] at hd
      simp only [allSomeResolved, Bool.and_eq_true] at hm
      have h1 := JParam.mergeUsage_eq_spec v m hd.1 hm.1
      have h2 := JEntries.mergeUsageE_eq_spec rest ms hd.2 hm.2
      simp only [JEntries.mergeUsageE, JEntries.mergeSpecE, h1, h2]; rfl

end

/-- C8 counterexample: the claim says `reset_usage` terminates normally on
every tree, including trees with `Refer` nodes not yet resolved by
`init_run`.  On an unresolved `Refer`, `_get_children` returns `[None]` and
`None.reset_usage()` raises `AttributeError`. -/
theorem C8_resetUsage_raises_on_unresolved_refer :
    (JParam.referNone true ["x"]).resetUsage = Except.error () := rfl

/-- C8 (amended): for every parameter tree whose `Refer` nodes are all
resolved, `reset_usage()` terminates normally and afterwards every node has
`used = false`. -/
theorem C8_resetUsage_clears_all_on_resolved (p : JParam) (h : p.resolvedB = true) :
    ∃ q, p.resetUsage = Except.ok q ∧ q.allUnusedB = true :=
  JParam.resetUsage_resolved p h

/-- C8 witness: a concrete tree with a resolved `Refer` node. -/
theorem C8_witness :
    (JParam.jdict true (.cons "r"
        (.referSome true ["a"] (.jvalue true (.vInt 3) none)) .nil)).resolvedB = true ∧
    ∃ q, (JParam.jdict true (.cons "r"
        (.referSome true ["a"] (.jvalue true (.vInt 3) none)) .nil)).resetUsage =
          Except.ok q ∧ q.allUnusedB = true :=
  ⟨rfl, C8_resetUsage_clears_all_on_resolved _ rfl⟩

/-- C9 counterexample: the claim says `merge_usage` never raises for any two
trees of mismatched shape.  When the left tree is an unresolved `Refer` and
the mirror has at least one child, the pairwise `zip` visits the Python
`None` child and raises `AttributeError`. -/
theorem C9_mergeUsage_raises_on_unresolved_refer :
    (JParam.referNone false ["x"]).mergeUsage
      (JParam.jdict false (.cons "k" (.jvalue false (.vInt 1) none) .nil)) =
      Except.error () := rfl

/-- C9 (amended): on trees whose `Refer` nodes are all resolved,
`merge_usage` never raises on a shape difference: it computes the
specification-level merge that ORs the `used` flags of children paired
positionally in child-iteration order and leaves surplus children present in
only one of the two trees unchanged. -/
theorem C9_mergeUsage_total_on_resolved (a b : JParam)
    (ha : a.resolvedB = true) (hb : b.resolvedB = true) :
    a.mergeUsage b = Except.ok (a.mergeSpec b) :=
  JParam.mergeUsage_eq_spec a b ha hb

/-- C9 witness: mismatched shapes — the left dict has a surplus entry `y`,
the mirror a surplus grandchild; the merge succeeds and matches the
specification merge. -/
theorem C9_witness :
    (JParam.jdict false (.cons "x" (.jvalue true (.vInt 1) none)
        (.cons "y" (.jvalue false (.vInt 2) none) .nil))).resolvedB = true ∧
    (JParam.jdict true (.cons "x" (.jvalue false (.vInt 7) none) .nil)).resolvedB = true ∧
    (JParam.jdict false (.cons "x" (.jvalue true (.vInt 1) none)
        (.cons "y" (.jvalue false (.vInt 2) none) .nil))).mergeUsage
      (JParam.jdict true (.cons "x" (.jvalue false (.vInt 7) none) .nil)) =
      Except.ok ((JParam.jdict false (.cons "x" (.jvalue true (.vInt 1) none)
        (.cons "y" (.jvalue false (.vInt 2) none) .nil))).mergeSpec
      (JParam.jdict true (.cons "x" (.jvalue false (.vInt 7) none) .nil))) :=
  ⟨rfl, rfl, C9_mergeUsage_total_on_resolved _ _ rfl rfl⟩

/-! ## IO registry (`io.py`)

Python types are represented by their names; a concrete type carries its
method-resolution order as a list of names whose head is the type itself.
Writer/reader callables are represented by identifiers. -/

/-- Assoc-list lookup for string-keyed registries. -/
def lookupS (k : String) : List (String × String) → Option String
  | [] => none
  | (k2, v) :: rest => if k2 = k then some v else lookupS k rest

/-- Assoc-list store with Python `dict` semantics. -/
def setS (k v : String) : List (String × String) → List (String × String)
  | [] => [(k, v)]
  | (k2, v2) :: rest => if k2 = k then (k2, v) :: rest else (k2, v2) :: setS k v rest

/-- The module-level registries `_WRITERS`, `_READERS`, `_RESOLVED_WRITERS`
of `io.py`. -/
structure IOState where
  writers : List (String × String)
  readers : List (String × String)
  resolvedWriters : List (String × String)
deriving DecidableEq

/-- The empty registry state. -/
def emptyRegistry : IOState := ⟨[], [], []⟩

/-- `io.register` (io.py lines 16-31): stores the writer in both `_WRITERS`
and `_RESOLVED_WRITERS` and the reader in `_READERS`. -/
def IOState.registerRW (st : IOState) (cls writerId readerId : String) : IOState :=
  { writers := setS cls writerId st.writers
    readers := setS cls readerId st.readers
    resolvedWriters := setS cls writerId st.resolvedWriters }

/-- First type in the MRO that has a registered writer, with its writer. -/
def findMroWriter (ws : List (String × String)) : List String → Option (String × String)
  | [] => none
  | t :: rest =>
      match lookupS t ws with
      | some fn => some (t, fn)
      | none => findMroWriter ws rest

/-- `io.write` (io.py lines 34-67).  `mro` is `type(obj).__mro__`, whose head
is the concrete type `cls = type(obj)`.  On a `_RESOLVED_WRITERS` hit the
function returns `cls` unchanged; on a miss it walks the MRO, memoizes the
writer under the concrete type, rebinds `cls` to the ancestor and returns
it; with no registered ancestor it raises `TypeError`.  The call
`fn(obj, file_path)` is external file IO and has no modelled effect. -/
def IOState.writeObj (st : IOState) (mro : List String) : Except Unit (String × IOState) :=
  let cls := mro.headD ""
  match lookupS cls st.resolvedWriters with
  | some _fn => .ok (cls, st)
  | none =>
      match findMroWriter st.writers mro with
      | some (typ, fn) =>
          .ok (typ, { st with resolvedWriters := setS cls fn st.resolvedWriters })
      | none => .error ()

/-- `io.read` (io.py lines 70-87): exact-type reader lookup; `TypeError`
when no reader is registered for `cls`. -/
def IOState.readObj (st : IOState) (cls : String) : Except Unit String :=
  match lookupS cls st.readers with
  | some fn => .ok fn
  | none => .error ()

/-- C2: with only the ancestor `A` registered and a concrete type `C` whose
MRO is `[C, B, A]`, the first `write` resolves through the MRO, memoizes,
and returns `A` — but the second `write` hits `_RESOLVED_WRITERS[C]` and
returns the concrete type `C`, for which no reader is registered, so the
symmetric `read` fails.  This contradicts the claim (and the function's own
docstring) that every call returns the type under which the writer was
registered. -/
theorem C2_memoized_write_returns_concrete_type :
    ∃ st1 : IOState,
      (emptyRegistry.registerRW "A" "wA" "rA").writeObj ["C", "B", "A"] = Except.ok ("A", st1) ∧
      st1.writeObj ["C", "B", "A"] = Except.ok ("C", st1) ∧
      "C" ≠ "A" ∧
      st1.readObj "C" = Except.error () ∧
      st1.readObj "A" = Except.ok "rA" :=
  ⟨{ writers := [("A", "wA")], readers := [("A", "rA")],
     resolvedWriters := [("A", "wA"), ("C", "wA")] },
    rfl, rfl, by decide, rfl, rfl⟩

/-! ## `JDict.__setitem__` (param.py lines 220-235) -/

/-- A Python value on the right-hand side of `d[k] = value`: either a raw
(non-`JParam`) value or a `JParam` instance. -/
inductive PyAssign where
  | raw (v : Val) : PyAssign
  | param (p : JParam) : PyAssign

/-- `isinstance(value, JValue)`. -/
def PyAssign.isJValue : PyAssign → Bool
  | .raw _ => false
  | .param (.jvalue _ _ _) => true
  | .param _ => false

/-- `param.wrap_jparam` applied to the assigned value: a `JParam` passes
through, a raw value is wrapped in a fresh `JValue` (dtype `None`, `used`
false). -/
def PyAssign.wrapAssign : PyAssign → JParam
  | .raw v => .jvalue false v none
  | .param p => p

/-- The raw object stored by the in-place branch `self.data[key].value =
value`.  A non-`JValue` `JParam` stored through this branch becomes an
opaque object in the modelled value universe. -/
def PyAssign.rawVal : PyAssign → Val
  | .raw v => v
  | .param _ => .vObj "JParam"

/-- `JDict.__setitem__` (param.py lines 220-235).  Raises on a locked dict;
when the key already holds a `JValue` with a non-`None` dtype and the
assigned value is not a `JValue`, only the existing node's `value` field is
overwritten (dtype and `used` flag kept); otherwise the slot is rebound to
`wrap_jparam(value)`.  Keys are strings by the model's types, so the
`TypeError` branch for non-string keys cannot fire. -/
def jdictSetItem (locked : Bool) (d : JEntries) (k : String) (value : PyAssign) :
    Except Unit JEntries :=
  if locked then .error ()
  else
    match d.lookupE k with
    | some (.jvalue u _v (some dt)) =>
        if value.isJValue then .ok (d.setE k value.wrapAssign)
        else .ok (d.setE k (.jvalue u (value.rawVal) (some dt)))
    | _ => .ok (d.setE k value.wrapAssign)

theorem lookupE_setE_self (k : String) (v : JParam) :
    ∀ d : JEntries, (d.setE k v).lookupE k = some v
  | .nil => by simp [JEntries.setE, JEntries.lookupE]
  | .cons k2 v2 rest => by
      by_cases h : k2 = k
      · simp [JEntries.setE, JEntries.lookupE, h]
      · simp only [JEntries.setE, if_neg h, JEntries.lookupE, if_neg h]
        exact lookupE_setE_self k v rest

theorem lookupE_setE_other (k k2 : String) (v : JParam) (hne : k2 ≠ k) :
    ∀ d : JEntries, (d.setE k v).lookupE k2 = d.lookupE k2
  | .nil => by simp [JEntries.setE, JEntries.lookupE, Ne.symm hne]
  | .cons k3 v3 rest => by
      by_cases h : k3 = k
      · subst h
        have hkk2 : ¬k3 = k2 := fun h2 => hne h2.symm
        simp [JEntries.setE, JEntries.lookupE, hkk2]
      · simp only [JEntries.setE, if_neg h, JEntries.lookupE]
        by_cases h2 : k3 = k2
        · simp [h2]
        · simp only [if_neg h2]
          exact lookupE_setE_other k k2 v hne rest

theorem keysE_setE_of_mem (k : String) (v : JParam) :
    ∀ d : JEntries, (d.lookupE k).isSome → (d.setE k v).keysE = d.keysE
  | .nil, h => by simp [JEntries.lookupE] at h
  | .cons k2 v2 rest, h => by
      by_cases hk : k2 = k
      · simp [JEntries.setE, hk, JEntries.keysE]
      · simp only [JEntries.lookupE, if_neg hk] at h
        simp only [JEntries.setE, if_neg hk, JEntries.keysE,
          keysE_setE_of_mem k v rest h]

/-- C10: on an unlocked dict, assigning a non-`JParam` value to a key whose
current node is a `JValue` with a dtype updates that node in place: the
`value` field becomes the assigned value while the dtype and the current
`used` flag are preserved (a node already marked used stays used), every
other key's node is untouched, and the key order of the dict is unchanged. -/
theorem C10_setitem_in_place_preserves_dtype_and_used
    (d : JEntries) (k : String) (u : Bool) (v0 : Val) (dt : Dtype) (w : Val)
    (hk : d.lookupE k = some (.jvalue u v0 (some dt))) :
    jdictSetItem false d k (.raw w) =
        Except.ok (d.setE k (.jvalue u w (some dt))) ∧
    (d.setE k (.jvalue u w (some dt))).lookupE k = some (.jvalue u w (some dt)) ∧
    (∀ k2, k2 ≠ k → (d.setE k (.jvalue u w (some dt))).lookupE k2 = d.lookupE k2) ∧
    (d.setE k (.jvalue u w (some dt))).keysE = d.keysE := by
  refine ⟨?_, lookupE_setE_self k _ d, fun k2 h => lookupE_setE_other k k2 _ h d,
    keysE_setE_of_mem k _ d (by simp [hk])⟩
  simp [jdictSetItem, hk, PyAssign.isJValue, PyAssign.rawVal]

/-- C10 witness: concrete dict `{a: JValue(3, dtype=int, used), b: JValue(0)}`,
assignment `d[a] = 7`. -/
theorem C10_witness :
    (JEntries.cons "a" (.jvalue true (.vInt 3) (some .dInt))
        (.cons "b" (.jvalue false (.vInt 0) none) .nil)).lookupE "a" =
      some (.jvalue true (.vInt 3) (some .dInt)) ∧
    jdictSetItem false
        (JEntries.cons "a" (.jvalue true (.vInt 3) (some .dInt))
          (.cons "b" (.jvalue false (.vInt 0) none) .nil)) "a" (.raw (.vInt 7)) =
      Except.ok ((JEntries.cons "a" (.jvalue true (.vInt 3) (some .dInt))
          (.cons "b" (.jvalue false (.vInt 0) none) .nil)).setE "a"
        (.jvalue true (.vInt 7) (some .dInt))) :=
  ⟨rfl, (C10_setitem_in_place_preserves_dtype_and_used
    (JEntries.cons "a" (.jvalue true (.vInt 3) (some .dInt))
      (.cons "b" (.jvalue false (.vInt 0) none) .nil)) "a" true (.vInt 3) .dInt
    (.vInt 7) rfl).1⟩

/-! ## Evaluation (`get_value`) and run initialization (`init_run`) -/

/-- Interpretation of `Buffer.var` callables: a callable name applied to the
evaluated keyword arguments (`signature(var).bind` names them). -/
def Interp : Type := String → List (String × Val) → Val

mutual

/-- `JParam.get_value` (param.py lines 91-94): set `used = true` on this
node, then `_get_value()`.  Variant-specific `_get_value`:
`JValue` returns its raw value; `JDict` returns itself (an opaque object
here); `InvisibleParam` and a resolved `Refer` delegate to the wrapped
node's `get_value` (marking it used); `Buffer`/`XBuffer` return the memo if
it is not `None`, otherwise evaluate every argument child via `get_value`
and store the callable's result in the memo; an unresolved `Refer` raises
`AttributeError` on `None.get_value()`. -/
def JParam.getValue (it : Interp) : JParam → Except Unit (Val × JParam)
  | .jvalue _ v dt => .ok (v, .jvalue true v dt)
  | .jdict _ d => .ok (.vObj "JDict", .jdict true d)
  | .invisible _ c => do
      let r ← JParam.getValue it c
      .ok (r.1, .invisible true r.2)
  | .buffer _ n rc v d =>
      if v = Val.vNone then do
        let r ← JEntries.evalEntries it d
        .ok (it n r.1, .buffer true n rc (it n r.1) r.2)
      else .ok (v, .buffer true n rc v d)
  | .xbuffer _ n rc v dt d =>
      if v = Val.vNone then do
        let r ← JEntries.evalEntries it d
        .ok (it n r.1, .xbuffer true n rc (it n r.1) dt r.2)
      else .ok (v, .xbuffer true n rc v dt d)
  | .referNone _ _ => .error ()
  | .referSome _ l t => do
      let r ← JParam.getValue it t
      .ok (r.1, .referSome true l r.2)

/-- `{k: v.get_value() for k, v in self.data.items()}`: evaluate argument
children in iteration order, marking each used. -/
def JEntries.evalEntries (it : Interp) : JEntries → Except Unit (List (String × Val) × JEntries)
  | .nil => .ok ([], .nil)
  | .cons k v rest => do
      let r ← JParam.getValue it v
      let rs ← JEntries.evalEntries it rest
      .ok ((k, r.1) :: rs.1, .cons k r.2 rs.2)

end

/-- The new memo value of a `Buffer` after its `_init_run` hook
(param.py lines 337-342): cleared on `ON_RUN`, cleared on
`ON_RUN_IF_PARENT_PATH` only when `is_parent_path`, kept otherwise. -/
def bufferResetVal (rc : ResetCondition) (ipp : Bool) (v : Val) : Val :=
  if rc = .ON_RUN ∨ (ipp = true ∧ rc = .ON_RUN_IF_PARENT_PATH) then .vNone else v

/-- `data` mapping of a node, when the node has one (`JDict` and its
subclasses `Buffer`/`YBuffer`/`XBuffer`); attribute access `jparam.data`
raises on every other variant. -/
def JParam.dataOf : JParam → Option JEntries
  | .jdict _ d => some d
  | .buffer _ _ _ _ d => some d
  | .xbuffer _ _ _ _ _ d => some d
  | _ => none

/-- The reference walk of `Refer._init_run` (param.py lines 418-424):
starting from the environment root, step through `jparam.data[ref]` for
each component, unwrapping one `InvisibleParam` layer after each step;
a missing key or a node without `data` raises. -/
def resolveRefGo (cur : JParam) : List String → Except Unit JParam
  | [] => .ok cur
  | r :: rest =>
      match cur.dataOf with
      | none => .error ()
      | some d =>
          match d.lookupE r with
          | none => .error ()
          | some child =>
              match child with
              | .invisible _ c => resolveRefGo c rest
              | c => resolveRefGo c rest

mutual

/-- `JParam.init_run` (param.py lines 65-77): run the node's `_init_run`
hook, then recurse into the children top-down with the same
`is_parent_path` flag and environment root.  A `Refer` hook resolves its
dotted reference against the root and deep-copies the referent into its
slot; the fresh copy is then itself initialized as the `Refer`'s child.
Mutual recursion through resolved referents can exceed the Python call
stack (e.g. on self-referential trees), so the embedding carries an
explicit stack-depth fuel; exhausted fuel is Python's `RecursionError`.
The root argument is the environment object passed down; top-down in-place
mutation ordering during the traversal is not observable by any claim in
scope and the root is read as supplied at entry. -/
def JParam.initRun : Nat → Bool → JParam → JParam → Except Unit JParam
  | 0, _, _, _ => .error ()
  | Nat.succ _, _, _, .jvalue u v dt => .ok (.jvalue u v dt)
  | Nat.succ fuel, ipp, root, .jdict u d => do
      let d2 ← JEntries.initRunE fuel ipp root d
      .ok (.jdict u d2)
  | Nat.succ fuel, ipp, root, .invisible u c => do
      let c2 ← JParam.initRun fuel ipp root c
      .ok (.invisible u c2)
  | Nat.succ fuel, ipp, root, .buffer u n rc v d => do
      let d2 ← JEntries.initRunE fuel ipp root d
      .ok (.buffer u n rc (bufferResetVal rc ipp v) d2)
  | Nat.succ fuel, ipp, root, .xbuffer u n rc v dt d => do
      let d2 ← JEntries.initRunE fuel ipp root d
      .ok (.xbuffer u n rc (bufferResetVal rc ipp v) dt d2)
  | Nat.succ fuel, ipp, root, .referNone u refs => do
      let t ← resolveRefGo root refs
      let t2 ← JParam.initRun fuel ipp root t
      .ok (.referSome u refs t2)
  | Nat.succ fuel, ipp, root, .referSome u refs _t => do
      let t ← resolveRefGo root refs
      let t2 ← JParam.initRun fuel ipp root t
      .ok (.referSome u refs t2)

/-- `init_run` over the children of a `JDict`-like node. -/
def JEntries.initRunE : Nat → Bool → JParam → JEntries → Except Unit JEntries
  | 0, _, _, _ => .error ()
  | Nat.succ _, _, _, .nil => .ok .nil
  | Nat.succ fuel, ipp, root, .cons k v rest => do
      let v2 ← JParam.initRun fuel ipp root v
      let rest2 ← JEntries.initRunE fuel ipp root rest
      .ok (.cons k v2 rest2)

end

/-- A trivially constant interpretation, for concrete instances. -/
def constInterp : Interp := fun _ _ => Val.vNone

/-- An interpretation returning `None` on argument `0` and the argument
value otherwise (used to exercise the `Buffer` memo test). -/
def c6Interp : Interp := fun _ args =>
  match args with
  | [(_, Val.vInt 0)] => Val.vNone
  | [(_, v)] => v
  | _ => Val.vNone

/-- C7 counterexample: calling the public accessor on an `InvisibleParam`
delegates through the wrapped node's `get_value`, so the wrapped child's
`used` flag flips from false to true — not only the node itself is marked. -/
theorem C7_getValue_on_invisible_marks_wrapped_child :
    (JParam.invisible false (.jvalue false (.vInt 1) none)).getValue constInterp =
      Except.ok (.vInt 1, JParam.invisible true (.jvalue true (.vInt 1) none)) ∧
    (JParam.jvalue false (.vInt 1) none).usedOf = false ∧
    (JParam.jvalue true (.vInt 1) none).usedOf = true :=
  ⟨rfl, rfl, rfl⟩

/-- C7 (amended): `get_value()` sets `used` only on the node itself for
`JValue` nodes, `JDict` nodes, and `Buffer` nodes whose memo is populated
(not `None`); `InvisibleParam` and resolved `Refer` nodes instead delegate
through the wrapped node's own `get_value`, which marks that descendant
used as well. -/
theorem C7_getValue_marking :
    (∀ (it : Interp) (u : Bool) (v : Val) (dt : Option Dtype),
      (JParam.jvalue u v dt).getValue it = Except.ok (v, .jvalue true v dt)) ∧
    (∀ (it : Interp) (u : Bool) (d : JEntries),
      (JParam.jdict u d).getValue it = Except.ok (.vObj "JDict", .jdict true d)) ∧
    (∀ (it : Interp) (u : Bool) (n : String) (rc : ResetCondition) (v : Val) (d : JEntries),
      v ≠ Val.vNone →
      (JParam.buffer u n rc v d).getValue it = Except.ok (v, .buffer true n rc v d)) ∧
    (∀ (it : Interp) (u : Bool) (c : JParam) (r : Val × JParam),
      c.getValue it = Except.ok r →
      (JParam.invisible u c).getValue it = Except.ok (r.1, .invisible true r.2)) ∧
    (∀ (it : Interp) (u : Bool) (l : List String) (t : JParam) (r : Val × JParam),
      t.getValue it = Except.ok r →
      (JParam.referSome u l t).getValue it = Except.ok (r.1, .referSome true l r.2)) := by
  refine ⟨fun it u v dt => rfl, fun it u d => rfl, ?_, ?_, ?_⟩
  · intro it u n rc v d hv
    simp [JParam.getValue, hv]
  · intro it u c r hr
    simp only [JParam.getValue, hr]; rfl
  · intro it u l t r hr
    simp only [JParam.getValue, hr]; rfl

/-- C7 witness: the memoized-buffer and invisible parts at concrete trees. -/
theorem C7_witness :
    (Val.vInt 9 ≠ Val.vNone) ∧
    (JParam.buffer false "f" .NEVER (.vInt 9)
        (.cons "x" (.jvalue false (.vInt 0) none) .nil)).getValue constInterp =
      Except.ok (.vInt 9, .buffer true "f" .NEVER (.vInt 9)
        (.cons "x" (.jvalue false (.vInt 0) none) .nil)) ∧
    (JParam.jvalue false (.vInt 2) none).getValue constInterp =
      Except.ok (.vInt 2, .jvalue true (.vInt 2) none) :=
  ⟨by decide,
    C7_getValue_marking.2.2.1 constInterp false "f" .NEVER (.vInt 9)
      (.cons "x" (.jvalue false (.vInt 0) none) .nil) (by decide),
    C7_getValue_marking.1 constInterp false (.vInt 2) none⟩

/-- Memo state of a `Buffer` after a successful `init_run`. -/
theorem initRun_buffer_memo (fuel : Nat) (ipp : Bool) (root : JParam) (u : Bool)
    (n : String) (rc : ResetCondition) (v : Val) (d : JEntries) (b2 : JParam)
    (h : JParam.initRun fuel ipp root (.buffer u n rc v d) = .ok b2) :
    b2.memoOf = some (bufferResetVal rc ipp v) := by
  cases fuel with
  | zero => simp [JParam.initRun] at h
  | succ fuel =>
      cases hd : JEntries.initRunE fuel ipp root d with
      | error e =>
          simp only [JParam.initRun, hd] at h
          cases h
      | ok d2 =>
          simp only [JParam.initRun, hd] at h
          cases h
          rfl

/-- C6 counterexample: a `NEVER` buffer whose callable returns `None` does
not cache — `Buffer.value` stays `None`, so after mutating the argument
from `0` to `5` (via `__setitem__`) the next `get_value` re-invokes the
callable and returns `5`, not the value produced by the first evaluation. -/
theorem C6_never_buffer_recomputes_after_none_result :
    (JParam.buffer false "f" .NEVER .vNone
        (.cons "x" (.jvalue false (.vInt 0) none) .nil)).getValue c6Interp =
      Except.ok (Val.vNone, .buffer true "f" .NEVER .vNone
        (.cons "x" (.jvalue true (.vInt 0) none) .nil)) ∧
    jdictSetItem false (.cons "x" (.jvalue true (.vInt 0) none) .nil) "x"
        (.raw (.vInt 5)) =
      Except.ok (.cons "x" (.jvalue false (.vInt 5) none) .nil) ∧
    (JParam.buffer true "f" .NEVER .vNone
        (.cons "x" (.jvalue false (.vInt 5) none) .nil)).getValue c6Interp =
      Except.ok (Val.vInt 5, .buffer true "f" .NEVER (.vInt 5)
        (.cons "x" (.jvalue true (.vInt 5) none) .nil)) ∧
    Val.vInt 5 ≠ Val.vNone :=
  ⟨rfl, rfl, rfl, by decide⟩

/-- C6 (amended): (i) with `reset_condition=NEVER` a buffer whose memo holds
a non-`None` value returns exactly that value on every `get_value`,
regardless of the current argument children, and `init_run` never clears
the memo (a `None` result is not cached and triggers re-evaluation);
(ii) with `ON_RUN` the memo is cleared at every `init_run`; (iii) with
`ON_RUN_IF_PARENT_PATH` the memo is cleared at `init_run` exactly when
`is_parent_path` is true. -/
theorem C6_buffer_reset_semantics :
    (∀ (it : Interp) (u : Bool) (n : String) (v : Val) (d : JEntries),
      v ≠ Val.vNone →
      (JParam.buffer u n .NEVER v d).getValue it = Except.ok (v, .buffer true n .NEVER v d)) ∧
    (∀ (fuel : Nat) (ipp : Bool) (root : JParam) (u : Bool) (n : String) (v : Val)
        (d : JEntries) (b2 : JParam),
      JParam.initRun fuel ipp root (.buffer u n .NEVER v d) = .ok b2 →
      b2.memoOf = some v) ∧
    (∀ (fuel : Nat) (ipp : Bool) (root : JParam) (u : Bool) (n : String) (v : Val)
        (d : JEntries) (b2 : JParam),
      JParam.initRun fuel ipp root (.buffer u n .ON_RUN v d) = .ok b2 →
      b2.memoOf = some Val.vNone) ∧
    (∀ (fuel : Nat) (ipp : Bool) (root : JParam) (u : Bool) (n : String) (v : Val)
        (d : JEntries) (b2 : JParam),
      JParam.initRun fuel ipp root (.buffer u n .ON_RUN_IF_PARENT_PATH v d) = .ok b2 →
      b2.memoOf = some (if ipp then Val.vNone else v)) := by
  refine ⟨?_, ?_, ?_, ?_⟩
  · intro it u n v d hv
    simp [JParam.getValue, hv]
  · intro fuel ipp root u n v d b2 h
    have h2 := initRun_buffer_memo fuel ipp root u n .NEVER v d b2 h
    simpa [bufferResetVal] using h2
  · intro fuel ipp root u n v d b2 h
    have h2 := initRun_buffer_memo fuel ipp root u n .ON_RUN v d b2 h
    simpa [bufferResetVal] using h2
  · intro fuel ipp root u n v d b2 h
    have h2 := initRun_buffer_memo fuel ipp root u n .ON_RUN_IF_PARENT_PATH v d b2 h
    cases ipp with
    | true => simpa [bufferResetVal] using h2
    | false => simpa [bufferResetVal] using h2

/-- C6 witness: the four parts at concrete buffers (argument dict `{x: 0}`,
memo `7`, both values of `is_parent_path` for part (iii)). -/
theorem C6_witness :
    (Val.vInt 7 ≠ Val.vNone) ∧
    (JParam.buffer false "f" .NEVER (.vInt 7)
        (.cons "x" (.jvalue false (.vInt 0) none) .nil)).getValue c6Interp =
      Except.ok (.vInt 7, .buffer true "f" .NEVER (.vInt 7)
        (.cons "x" (.jvalue false (.vInt 0) none) .nil)) ∧
    JParam.initRun 2 true (.jdict false .nil)
        (.buffer false "f" .NEVER (.vInt 7) .nil) =
      Except.ok (.buffer false "f" .NEVER (.vInt 7) .nil) ∧
    (JParam.buffer false "f" .NEVER (.vInt 7) .nil : JParam).memoOf = some (.vInt 7) ∧
    JParam.initRun 2 false (.jdict false .nil)
        (.buffer false "f" .ON_RUN (.vInt 7) .nil) =
      Except.ok (.buffer false "f" .ON_RUN .vNone .nil) ∧
    (JParam.buffer false "f" .ON_RUN .vNone .nil : JParam).memoOf = some Val.vNone ∧
    JParam.initRun 2 true (.jdict false .nil)
        (.buffer false "f" .ON_RUN_IF_PARENT_PATH (.vInt 7) .nil) =
      Except.ok (.buffer false "f" .ON_RUN_IF_PARENT_PATH .vNone .nil) ∧
    JParam.initRun 2 false (.jdict false .nil)
        (.buffer false "f" .ON_RUN_IF_PARENT_PATH (.vInt 7) .nil) =
      Except.ok (.buffer false "f" .ON_RUN_IF_PARENT_PATH (.vInt 7) .nil) ∧
    ((JParam.buffer false "f" .ON_RUN_IF_PARENT_PATH .vNone .nil : JParam).memoOf =
      some (if true then Val.vNone else .vInt 7)) ∧
    ((JParam.buffer false "f" .ON_RUN_IF_PARENT_PATH (.vInt 7) .nil : JParam).memoOf =
      some (if false then Val.vNone else .vInt 7)) :=
  ⟨by decide,
    C6_buffer_reset_semantics.1 c6Interp false "f" (.vInt 7)
      (.cons "x" (.jvalue false (.vInt 0) none) .nil) (by decide),
    rfl,
    C6_buffer_reset_semantics.2.1 2 true (.jdict false .nil) false "f" (.vInt 7) .nil
      (.buffer false "f" .NEVER (.vInt 7) .nil) rfl,
    rfl,
    C6_buffer_reset_semantics.2.2.1 2 false (.jdict false .nil) false "f" (.vInt 7) .nil
      (.buffer false "f" .ON_RUN .vNone .nil) rfl,
    rfl, rfl,
    C6_buffer_reset_semantics.2.2.2 2 true (.jdict false .nil) false "f" (.vInt 7) .nil
      (.buffer false "f" .ON_RUN_IF_PARENT_PATH .vNone .nil) rfl,
    C6_buffer_reset_semantics.2.2.2 2 false (.jdict false .nil) false "f" (.vInt 7) .nil
      (.buffer false "f" .ON_RUN_IF_PARENT_PATH (.vInt 7) .nil) rfl⟩

/-! ## SQL projection (`get_sql_data`) -/

/-- Return value of a node's `get_sql_data`: a flattened dict, a primitive,
or the `InvisibleParam` sentinel (`self`) that a parent dict skips. -/
inductive SqlResult where
  | entries (l : List (String × SqlVal)) : SqlResult
  | prim (v : SqlVal) : SqlResult
  | invisibleMark : SqlResult
deriving DecidableEq

/-- Assoc-list assignment with Python `dict` semantics for SQL dicts. -/
def setSL (l : List (String × SqlVal)) (k : String) (v : SqlVal) :
    List (String × SqlVal) :=
  match l with
  | [] => [(k, v)]
  | (k2, v2) :: rest => if k2 = k then (k2, v) :: rest else (k2, v2) :: setSL rest k v

/-- Repeated `dict` assignment of a list of pairs, left to right. -/
def unionSL (acc : List (String × SqlVal)) : List (String × SqlVal) → List (String × SqlVal)
  | [] => acc
  | (k, v) :: rest => unionSL (setSL acc k v) rest

/-- `XBuffer._get_value()` as called by `XBuffer.get_sql_data`: return the
memo when populated, otherwise evaluate the argument children and apply the
callable.  The in-place memoization and the `used` marks this sets on the
argument children during projection are internal mutation not observed by
the projected output and are not threaded here. -/
def xbufferSqlVal (it : Interp) (n : String) (v : Val) (d : JEntries) : Except Unit Val :=
  if v = Val.vNone then do
    let r ← JEntries.evalEntries it d
    .ok (it n r.1)
  else .ok v

mutual

/-- `get_sql_data` (param.py).  `JValue` casts through its dtype or
`cast_sql_type` (or emits the type tag in schema mode); `JDict` flattens
used (or all, with `show_unused`) children into dotted keys; an
`InvisibleParam` returns itself as a sentinel unless `show_invisible`;
`Buffer` adds a `"var"` entry with the callable's name on top of the dict
recursion; `XBuffer` projects its evaluated output instead of its children;
a `Refer` delegates to its resolved target (raising on `None`). -/
def JParam.getSqlData (it : Interp) (su si rs : Bool) : JParam → Except Unit SqlResult
  | .jvalue _ v dt =>
      if rs then
        match dt with
        | some d => .ok (.prim (.sStr (dtypeName d)))
        | none => do
            let t ← getSqlType v
            .ok (.prim (.sStr t))
      else
        match dt with
        | some d => do
            let s ← applyDtype d v
            .ok (.prim s)
        | none => do
            let s ← castSqlType v
            .ok (.prim s)
  | .jdict _ d => do
      let l ← JEntries.getSqlDataE it su si rs [] d
      .ok (.entries l)
  | .invisible _ c =>
      if si then JParam.getSqlData it su si rs c
      else .ok .invisibleMark
  | .buffer _ n _ _ d => do
      let l ← JEntries.getSqlDataE it su si rs [] d
      .ok (.entries (setSL l "var" (.sStr n)))
  | .xbuffer _ n _ v dt d =>
      if rs then
        match dt with
        | some dd => .ok (.prim (.sStr (dtypeName dd)))
        | none => do
            let xv ← xbufferSqlVal it n v d
            let t ← getSqlType xv
            .ok (.prim (.sStr t))
      else
        match dt with
        | some dd => do
            let xv ← xbufferSqlVal it n v d
            let s ← applyDtype dd xv
            .ok (.prim s)
        | none => do
            let xv ← xbufferSqlVal it n v d
            let s ← castSqlType xv
            .ok (.prim s)
  | .referNone _ _ => .error ()
  | .referSome _ _ t => JParam.getSqlData it su si rs t

/-- The `JDict.get_sql_data` loop (param.py lines 274-287) with its
accumulated `sql_dict`: for each child with `used ∨ show_unused`, merge a
dict result under dotted keys, assign a primitive under the child's key,
and skip the invisible sentinel. -/
def JEntries.getSqlDataE (it : Interp) (su si rs : Bool)
    (acc : List (String × SqlVal)) : JEntries → Except Unit (List (String × SqlVal))
  | .nil => .ok acc
  | .cons k v rest =>
      if v.usedOf || su then do
        let r ← JParam.getSqlData it su si rs v
        match r with
        | .entries l =>
            JEntries.getSqlDataE it su si rs
              (unionSL acc (l.map (fun p => (k ++ "." ++ p.1, p.2)))) rest
        | .prim s => JEntries.getSqlDataE it su si rs (setSL acc k s) rest
        | .invisibleMark => JEntries.getSqlDataE it su si rs acc rest
      else JEntries.getSqlDataE it su si rs acc rest

end

/-- `get_sql_data` of a dict-rooted environment as a flat assoc list. -/
def envSqlData (it : Interp) (su si : Bool) (env : JParam) :
    Except Unit (List (String × SqlVal)) := do
  let r ← env.getSqlData it su si false
  match r with
  | .entries l => .ok l
  | .prim _ => .error ()
  | .invisibleMark => .error ()

/-- `jmalc.get_sql_type` on values that are already SQL primitives (the
shape to which `get_sql_schema` applies it). -/
def sqlTypeName : SqlVal → String
  | .sBool _ => "bool"
  | .sInt _ => "int"
  | .sStr _ => "str"

/-- `jmalc.get_sql_schema`: map every value of the flat SQL dict to its
canonical type tag. -/
def getSqlSchema (l : List (String × SqlVal)) : List (String × String) :=
  l.map (fun p => (p.1, sqlTypeName p.2))

/-! ## Cache store (`jmalc.py` ORM rows) and the load/save engine
(`journey.py`).

The engine is modelled with `cache_db_meta = False`, i.e. the select-based
branches of `load_path_results`; the in-memory meta caches only short-cut
the same lookups.  Timestamps are integers; `created_at IS NULL` is
`Option.none`.  JSONB dict equality is key-set equality with equal values.
`PathResult.to_file` writes through the external IO registry and returns
the file schema; the saved schema is passed in as a parameter, and
`from_file` on load is represented by returning the stored `file_path` and
the version's `file_schema` alongside the row's `data`. -/

/-- A row of the `path` table (`DBPath`). -/
structure DBPathRow where
  name : String
  description : Option String
  current_version : Option Int
deriving DecidableEq

/-- A row of the `path_version` table (`DBPathVersion`). -/
structure DBPathVersionRow where
  name : String
  version : Int
  changelog : Option String
  env_schema : List (String × String)
  file_schema : Option (List (String × String))
deriving DecidableEq

/-- A row of the `result` table (`DBResult`). -/
structure DBResultRow where
  environment : List (String × SqlVal)
  data : Option (List (String × SqlVal))
  file_path : Option String
  created_at : Option Int
  path_name : String
  path_version_num : Int
deriving DecidableEq

/-- The cache database. -/
structure DB where
  paths : List DBPathRow
  versions : List DBPathVersionRow
  results : List DBResultRow
deriving DecidableEq

/-- `scalar_one_or_none()`: none on zero rows, the row on exactly one, and
`MultipleResultsFound` otherwise. -/
def scalarOneOrNone {α : Type} : List α → Except Unit (Option α)
  | [] => .ok none
  | [r] => .ok (some r)
  | _ => .error ()

/-- JSONB equality of flat SQL dicts (order-insensitive). -/
def dictEqSV (a b : List (String × SqlVal)) : Bool :=
  a.all (fun p => (lookupPairs p.1 b) = some p.2) &&
  b.all (fun p => (lookupPairs p.1 a) = some p.2)
where
  lookupPairs (k : String) : List (String × SqlVal) → Option SqlVal
    | [] => none
    | (k2, v) :: rest => if k2 = k then some v else lookupPairs k rest

/-- JSONB equality of schema dicts (order-insensitive). -/
def dictEqSS (a b : List (String × String)) : Bool :=
  a.all (fun p => (lookupPairs p.1 b) = some p.2) &&
  b.all (fun p => (lookupPairs p.1 a) = some p.2)
where
  lookupPairs (k : String) : List (String × String) → Option String
    | [] => none
    | (k2, v) :: rest => if k2 = k then some v else lookupPairs k rest

/-- Equality of stored `file_schema` values (`Null()` is `none`). -/
def fileSchemaEq (a b : Option (List (String × String))) : Bool :=
  match a, b with
  | none, none => true
  | some x, some y => dictEqSS x y
  | _, _ => false

/-- Python attribute access `.dtype` on a parameter node during the schema
walk of `load_path_results`: `JValue` and `XBuffer` carry the field; every
other variant raises (`JDict`/`Buffer` fall into `__getattr__`'s
`self.data["dtype"]` fallback, a `KeyError` for any environment that does
not itself define a parameter literally named `dtype` — such environments
are not modelled). -/
def JParam.dtypeAttr : JParam → Except Unit (Option Dtype)
  | .jvalue _ _ dt => .ok dt
  | .xbuffer _ _ _ _ dt _ => .ok dt
  | _ => .error ()

/-- The per-key walk of `load_path_results` (journey.py lines 482-492):
follow the dotted components through the local environment with
`jparam = jparam[key]` (which marks each visited child used and evaluates
it), reading the leaf's `.dtype` just before the last step.  Intermediate
steps descend into dict children; a dict reached through a resolved `Refer`
or an `InvisibleParam` is the live nested node, so marks land inside the
environment.  Missing keys, non-indexable intermediates, and leaves without
a `dtype` attribute raise. -/
def schemaWalkNode (it : Interp) (p : JParam) : List String → Except Unit (Option Dtype × Val × JParam)
  | [] => .ok (none, .vObj "JDict", p)
  | [k] => do
      match p.dataOf with
      | none => .error ()
      | some d =>
          match d.lookupE k with
          | none => .error ()
          | some child => do
              let dt ← child.dtypeAttr
              let r ← child.getValue it
              .ok (dt, r.1, withDataJ p (d.setE k r.2))
  | k :: k2 :: rest => do
      match p.dataOf with
      | none => .error ()
      | some d =>
          match d.lookupE k with
          | none => .error ()
          | some child =>
              match child with
              | .jdict _ cd => do
                  let (dt, v, child2) ← schemaWalkNode it (.jdict true cd) (k2 :: rest)
                  .ok (dt, v, withDataJ p (d.setE k child2))
              | .referSome _ l t =>
                  match t with
                  | .jdict _ td => do
                      let (dt, v, t2) ← schemaWalkNode it (.jdict true td) (k2 :: rest)
                      .ok (dt, v, withDataJ p (d.setE k (.referSome true l t2)))
                  | _ => .error ()
              | .invisible _ inner =>
                  match inner with
                  | .jdict _ idn => do
                      let (dt, v, inner2) ← schemaWalkNode it (.jdict true idn) (k2 :: rest)
                      .ok (dt, v, withDataJ p (d.setE k (.invisible true inner2)))
                  | _ => .error ()
              | _ => .error ()
where
  /-- Rebuild a dict-like node with updated entries. -/
  withDataJ (q : JParam) (d2 : JEntries) : JParam :=
    match q with
    | .jdict u _ => .jdict u d2
    | .buffer u n rc v _ => .buffer u n rc v d2
    | .xbuffer u n rc v dt _ => .xbuffer u n rc v dt d2
    | other => other

/-- `param_used.split(REF_SEP)` with `REF_SEP = "."`: split a dotted key on
dots (structurally, matching Python `str.split`). -/
def splitDots (s : String) : List String :=
  go s.toList []
where
  go : List Char → List Char → List String
    | [], acc => [String.mk acc.reverse]
    | c :: rest, acc =>
        if c = '.' then String.mk acc.reverse :: go rest []
        else go rest (c :: acc)

/-- The `temp_env` construction of `load_path_results` (journey.py lines
481-492): for each dotted key of the stored `env_schema`, walk the local
environment and cast the leaf value with its `dtype` if set, else
`cast_sql_type`.  Any failure propagates. -/
def buildTempEnv (it : Interp) (env : JParam) :
    List (String × String) → Except Unit (List (String × SqlVal) × JParam)
  | [] => .ok ([], env)
  | (k, _tag) :: rest => do
      let (dt, v, env2) ← schemaWalkNode it env (splitDots k)
      let sv ← (match dt with
        | none => castSqlType v
        | some d => applyDtype d v)
      let (tl, env3) ← buildTempEnv it env2 rest
      .ok ((k, sv) :: tl, env3)

/-- The result handed back by a cache hit: `PathResult(sql=row.data)`
together with what `from_file` consumes (the row's `file_path` and the
version's `file_schema`). -/
structure LoadedResult where
  sql : Option (List (String × SqlVal))
  file_path : Option String
  file_schema : Option (List (String × String))
deriving DecidableEq

/-- `Journey.load_path_results` (journey.py lines 436-508), with
`cache_db_meta = False`.  A `save_datetime` path returns `None`
immediately.  Otherwise: select the `DBPath` row (absent → miss), take its
`current_version`, select the `DBPathVersion` row (absent, including a
`NULL` version, → miss), build `temp_env` from the stored schema (failures
propagate), then select the `DBResult` row matching the environment with
`created_at IS NULL`; if absent, reset usage on the probed environment and
miss; otherwise return the row's payload. -/
def loadPathResults (it : Interp) (db : DB) (env : JParam) (pathName : String)
    (sdt : Bool) : Except Unit (Option LoadedResult × JParam) :=
  if sdt then .ok (none, env)
  else do
    let path? ← scalarOneOrNone (db.paths.filter (fun r => r.name == pathName))
    match path? with
    | none => .ok (none, env)
    | some path => do
        let pv? := path.current_version
        let ver? ← scalarOneOrNone (db.versions.filter (fun r =>
          r.name == pathName && (match pv? with
            | some pv => r.version == pv
            | none => false)))
        match ver? with
        | none => .ok (none, env)
        | some ver => do
            let (tempEnv, env2) ← buildTempEnv it env ver.env_schema
            let res? ← scalarOneOrNone (db.results.filter (fun r =>
              r.path_name == pathName && (match pv? with
                | some pv => r.path_version_num == pv
                | none => false) &&
              dictEqSV r.environment tempEnv && r.created_at == none))
            match res? with
            | none => do
                let env3 ← env2.resetUsage
                .ok (none, env3)
            | some row =>
                .ok (some { sql := row.data, file_path := row.file_path,
                            file_schema := ver.file_schema }, env2)

/-- Largest existing version number for a path name
(`order_by desc / limit 1 / scalar_one_or_none`). -/
def maxVersionFor (versions : List DBPathVersionRow) (name : String) : Option Int :=
  (versions.filter (fun r => r.name == name)).foldl
    (fun acc r => match acc with
      | none => some r.version
      | some m => some (max m r.version)) none

/-- `Journey.save_path_results` (journey.py lines 510-601), with the
file-system side effects abstracted: `result.to_file` returns `fileSchema`
(computed by the external IO registry), and `get_filename`'s SHA-256 is the
supplied `fp`.  Returns the updated database. -/
def savePathResults (it : Interp) (db : DB) (env : JParam) (pathName : String)
    (sdt : Bool) (resultSql : Option (List (String × SqlVal)))
    (fileSchema : Option (List (String × String))) (changelog : Option String)
    (fp : List (String × SqlVal) → String) (resultDir : String) (now : Int) :
    Except Unit DB := do
  let envSql ← envSqlData it false false env
  let envSchema := getSqlSchema envSql
  let filePath := resultDir ++ "/" ++ pathName ++ "/" ++ fp envSql
  let path? ← scalarOneOrNone (db.paths.filter (fun r => r.name == pathName))
  let db1 : DB :=
    match path? with
    | none => { db with paths := db.paths ++
        [{ name := pathName, description := changelog, current_version := none }] }
    | some _ => db
  let ver? ← scalarOneOrNone (db1.versions.filter (fun r =>
    r.name == pathName && dictEqSS r.env_schema envSchema &&
    fileSchemaEq r.file_schema fileSchema))
  let (pvn, db2) : Int × DB :=
    match ver? with
    | none =>
        let nextVersion : Int :=
          match maxVersionFor db1.versions pathName with
          | none => 0
          | some m => m + 1
        (nextVersion, { db1 with versions := db1.versions ++
          [{ name := pathName, version := nextVersion, changelog := changelog,
             env_schema := envSchema, file_schema := fileSchema }] })
    | some ver => (ver.version, db1)
  let db3 : DB := { db2 with paths := db2.paths.map (fun r =>
    if r.name == pathName then { r with current_version := some pvn } else r) }
  if sdt then
    .ok { db3 with results := db3.results ++
      [{ environment := envSql, data := resultSql, path_name := pathName,
         path_version_num := pvn,
         file_path := (match fileSchema with
           | some _ => some filePath
           | none => none),
         created_at := some now }] }
  else do
    let res? ← scalarOneOrNone (db3.results.filter (fun r =>
      r.path_name == pathName && r.path_version_num == pvn &&
      dictEqSV r.environment envSql && r.created_at == none))
    match res? with
    | none =>
        .ok { db3 with results := db3.results ++
          [{ environment := envSql, data := resultSql, path_name := pathName,
             path_version_num := pvn, file_path := some filePath,
             created_at := none }] }
    | some row =>
        .ok { db3 with results := db3.results.map (fun r =>
          if r = row then
            { r with data := resultSql, file_path := some filePath }
          else r) }

/-- C4: a `save_datetime=true` path is never served from cache —
`load_path_results` returns `None` unconditionally before touching the
session — and every successful `save_path_results` appends one new `Result`
row with `created_at` set to the current time, leaving every existing row
untouched. -/
theorem C4_save_datetime_appends_and_never_loads :
    (∀ (it : Interp) (db : DB) (env : JParam) (name : String),
      loadPathResults it db env name true = Except.ok (none, env)) ∧
    (∀ (it : Interp) (db : DB) (env : JParam) (name : String)
        (resultSql : Option (List (String × SqlVal)))
        (fileSchema : Option (List (String × String))) (changelog : Option String)
        (fp : List (String × SqlVal) → String) (resultDir : String) (now : Int)
        (db2 : DB),
      savePathResults it db env name true resultSql fileSchema changelog fp
        resultDir now = Except.ok db2 →
      ∃ row, db2.results = db.results ++ [row] ∧ row.created_at = some now) := by
  constructor
  · intro it db env name
    simp [loadPathResults]
  · intro it db env name resultSql fileSchema changelog fp resultDir now db2 h
    simp only [savePathResults] at h
    cases h1 : envSqlData it false false env with
    | error e => rw [h1, exceptErrorBind] at h; cases h
    | ok envSql =>
        rw [h1, exceptOkBind] at h
        cases h2 : scalarOneOrNone (db.paths.filter (fun r => r.name == name)) with
        | error e => rw [h2, exceptErrorBind] at h; cases h
        | ok path? =>
            rw [h2, exceptOkBind] at h
            cases path? with
            | none =>
                cases h3 : scalarOneOrNone (({ db with paths := db.paths ++
                    [{ name := name, description := changelog,
                       current_version := none }] } : DB).versions.filter (fun r =>
                  r.name == name && dictEqSS r.env_schema (getSqlSchema envSql) &&
                  fileSchemaEq r.file_schema fileSchema)) with
                | error e => rw [h3, exceptErrorBind] at h; cases h
                | ok ver? =>
                    rw [h3, exceptOkBind] at h
                    cases ver? with
                    | none =>
                        cases h
                        exact ⟨_, rfl, rfl⟩
                    | some ver =>
                        cases h
                        exact ⟨_, rfl, rfl⟩
            | some path =>
                cases h3 : scalarOneOrNone (db.versions.filter (fun r =>
                  r.name == name && dictEqSS r.env_schema (getSqlSchema envSql) &&
                  fileSchemaEq r.file_schema fileSchema)) with
                | error e => rw [h3, exceptErrorBind] at h; cases h
                | ok ver? =>
                    rw [h3, exceptOkBind] at h
                    cases ver? with
                    | none =>
                        cases h
                        exact ⟨_, rfl, rfl⟩
                    | some ver =>
                        cases h
                        exact ⟨_, rfl, rfl⟩

/-- C4 witness: a run of the empty database with environment `{x: 3}`
(marked used), `save_datetime = true`, time `5`. -/
theorem C4_witness :
    loadPathResults constInterp ⟨[], [], []⟩ (.jdict false .nil) "p" true =
      Except.ok (none, .jdict false .nil) ∧
    ∃ db2 row,
      savePathResults constInterp ⟨[], [], []⟩
          (.jdict false (.cons "x" (.jvalue true (.vInt 3) none) .nil)) "p" true
          none none none (fun _ => "h") "d" 5 = Except.ok db2 ∧
      db2.results = ([] : List DBResultRow) ++ [row] ∧ row.created_at = some 5 := by
  refine ⟨C4_save_datetime_appends_and_never_loads.1 constInterp ⟨[], [], []⟩
    (.jdict false .nil) "p", ?_⟩
  obtain ⟨row, hr, hc⟩ := C4_save_datetime_appends_and_never_loads.2 constInterp
    ⟨[], [], []⟩ (.jdict false (.cons "x" (.jvalue true (.vInt 3) none) .nil)) "p"
    none none none (fun _ => "h") "d" 5 _ rfl
  exact ⟨_, row, rfl, hr, hc⟩

/-- C3 counterexample: a stored `env_schema` key `a` that is absent from the
local environment makes `load_path_results` raise (`KeyError` in the
source), not return `None` — there is no exception handling around the
`temp_env` walk (journey.py lines 481-492). -/
theorem C3_missing_schema_key_raises :
    loadPathResults constInterp
      ⟨[{ name := "p", description := none, current_version := some 0 }],
       [{ name := "p", version := 0, changelog := none,
          env_schema := [("a", "int")], file_schema := none }],
       []⟩
      (.jdict false .nil) "p" false = Except.error () ∧
    (Except.error () :
        Except Unit (Option LoadedResult × JParam)) ≠
      Except.ok (none, .jdict false .nil) :=
  ⟨rfl, fun h => nomatch h⟩

/-- C3 (amended): a dotted `env_schema` key that cannot be resolved against
the local environment makes `load_path_results` propagate the exception
rather than report a miss; `None` (a cache miss) is produced only by absent
database rows: no `DBPath` row, no matching `DBPathVersion` row, or — after
a fully successful walk — no matching `DBResult` row. -/
theorem C3_unresolvable_key_raises :
    (∀ (it : Interp) (db : DB) (env : JParam) (name : String),
      db.paths.filter (fun r => r.name == name) = [] →
      loadPathResults it db env name false = Except.ok (none, env)) ∧
    (∀ (it : Interp) (db : DB) (env : JParam) (name : String) (path : DBPathRow),
      db.paths.filter (fun r => r.name == name) = [path] →
      db.versions.filter (fun r =>
        r.name == name && (match path.current_version with
          | some pv => r.version == pv
          | none => false)) = [] →
      loadPathResults it db env name false = Except.ok (none, env)) ∧
    (∀ (it : Interp) (db : DB) (env : JParam) (name : String) (path : DBPathRow)
        (ver : DBPathVersionRow),
      db.paths.filter (fun r => r.name == name) = [path] →
      db.versions.filter (fun r =>
        r.name == name && (match path.current_version with
          | some pv => r.version == pv
          | none => false)) = [ver] →
      buildTempEnv it env ver.env_schema = Except.error () →
      loadPathResults it db env name false = Except.error ()) := by
  refine ⟨?_, ?_, ?_⟩
  · intro it db env name hp
    simp only [loadPathResults, hp, scalarOneOrNone, exceptOkBind]
    rfl
  · intro it db env name path hp hv
    simp only [loadPathResults, hp, hv, scalarOneOrNone, exceptOkBind]
    rfl
  · intro it db env name path ver hp hv hw
    simp only [loadPathResults, hp, hv, scalarOneOrNone, exceptOkBind, hw,
      exceptErrorBind]
    rfl

/-- C3 witness: the three row-absence/raise cases at concrete databases. -/
theorem C3_witness :
    loadPathResults constInterp ⟨[], [], []⟩ (.jdict false .nil) "p" false =
      Except.ok (none, .jdict false .nil) ∧
    loadPathResults constInterp
        ⟨[{ name := "p", description := none, current_version := some 3 }], [], []⟩
        (.jdict false .nil) "p" false =
      Except.ok (none, .jdict false .nil) ∧
    loadPathResults constInterp
        ⟨[{ name := "p", description := none, current_version := some 0 }],
         [{ name := "p", version := 0, changelog := none,
            env_schema := [("a", "int")], file_schema := none }],
         []⟩
        (.jdict false (.cons "b" (.jvalue false (.vInt 1) none) .nil)) "p" false =
      Except.error () :=
  ⟨C3_unresolvable_key_raises.1 constInterp ⟨[], [], []⟩ (.jdict false .nil) "p" rfl,
   C3_unresolvable_key_raises.2.1 constInterp
     ⟨[{ name := "p", description := none, current_version := some 3 }], [], []⟩
     (.jdict false .nil) "p"
     { name := "p", description := none, current_version := some 3 } rfl rfl,
   C3_unresolvable_key_raises.2.2 constInterp
     ⟨[{ name := "p", description := none, current_version := some 0 }],
      [{ name := "p", version := 0, changelog := none,
         env_schema := [("a", "int")], file_schema := none }],
      []⟩
     (.jdict false (.cons "b" (.jvalue false (.vInt 1) none) .nil)) "p"
     { name := "p", description := none, current_version := some 0 }
     { name := "p", version := 0, changelog := none,
       env_schema := [("a", "int")], file_schema := none } rfl rfl rfl⟩

/-! ## Batched subpath execution (`Journey.run_subpaths`, journey.py lines
407-433)

The recursive engine call `self._run(subpath_env, ...)` is abstracted as a
function `runEff` on the subpath environment: the body marks usage flags,
fills buffer memos and re-resolves references in place, but never changes
which parameters exist — captured by the hypothesis that `runEff`
preserves the structural skeleton `normJ`.  In the source,
`subpath_env.replace(batch_env)` stores the overlay's *objects* in the
subpath environment, so `batch_env.reset_usage()` after the run resets
exactly the subpath environment's entries at the overlay keys; with value
semantics this aliasing is expressed by `resetAtKeys` on those keys. -/

mutual

/-- Structural skeleton of a tree: `used` flags, values, dtypes, memos,
callable names and reset conditions erased; the dict keys, the node
variants, and the resolvedness of `Refer` nodes remain. -/
def JParam.normJ : JParam → JParam
  | .jvalue _ _ _ => .jvalue false .vNone none
  | .jdict _ d => .jdict false (JEntries.normE d)
  | .invisible _ c => .invisible false (JParam.normJ c)
  | .buffer _ _ _ _ d => .buffer false "" .NEVER .vNone (JEntries.normE d)
  | .xbuffer _ _ _ _ _ d => .xbuffer false "" .NEVER .vNone none (JEntries.normE d)
  | .referNone _ _ => .referNone false []
  | .referSome _ _ t => .referSome false [] (JParam.normJ t)

/-- `normJ` over entries (keys preserved). -/
def JEntries.normE : JEntries → JEntries
  | .nil => .nil
  | .cons k v rest => .cons k (JParam.normJ v) (JEntries.normE rest)

end

mutual

/-- `JDict.merge_dtypes` (param.py lines 289-300) applied to one node of
`self` with the matching node of `other`: a `JValue` inherits `other`'s
non-`None` dtype; nested dict-like pairs recurse; anything else is
unchanged. -/
def mergeDtypesNode : JParam → JParam → JParam
  | .jvalue u val dt, ov =>
      (match ov with
       | .jvalue _ _ (some odt) => .jvalue u val (some odt)
       | _ => .jvalue u val dt)
  | .jdict u d, ov =>
      (match ov.dataOf with
       | some od => .jdict u (mergeDtypesE d od)
       | none => .jdict u d)
  | .buffer u n rc v d, ov =>
      (match ov.dataOf with
       | some od => .buffer u n rc v (mergeDtypesE d od)
       | none => .buffer u n rc v d)
  | .xbuffer u n rc v dt d, ov =>
      (match ov.dataOf with
       | some od => .xbuffer u n rc v dt (mergeDtypesE d od)
       | none => .xbuffer u n rc v dt d)
  | p, _ => p

/-- `merge_dtypes` over `self.data`, keyed into `other`. -/
def mergeDtypesE : JEntries → JEntries → JEntries
  | .nil, _ => .nil
  | .cons k v rest, other =>
      (match other.lookupE k with
       | none => .cons k v (mergeDtypesE rest other)
       | some ov => .cons k (mergeDtypesNode v ov) (mergeDtypesE rest other))

end

/-- `self.data.update(other.data)`: Python dict update — existing keys are
overwritten in place, new keys are appended in `other`'s order. -/
def JEntries.updateE (d : JEntries) : JEntries → JEntries
  | .nil => d
  | .cons k v rest => (d.setE k v).updateE rest

/-- `JDict.replace` (param.py lines 200-215): `other` must be dict-like
(`TypeError` otherwise); `other.merge_dtypes(self)` first pushes `self`'s
dtypes onto the overlay, then `self.data.update(other.data)` installs the
overlay's nodes. -/
def replaceJ (parent other : JParam) : Except Unit JParam :=
  match parent with
  | .jdict u d =>
      (match other.dataOf with
       | some od => .ok (.jdict u (d.updateE (mergeDtypesE od d)))
       | none => .error ())
  | _ => .error ()

/-- `batch_env.reset_usage()` seen through the overlay aliasing: reset the
usage of the environment's entries at the overlay keys. -/
def resetAtKeysE : JEntries → List String → Except Unit JEntries
  | .nil, _ => .ok .nil
  | .cons k v rest, ks => do
      let v2 ← (if ks.contains k then v.resetUsage else .ok v)
      let rest2 ← resetAtKeysE rest ks
      .ok (.cons k v2 rest2)

/-- `resetAtKeysE` on a dict-rooted environment. -/
def resetAtKeys (p : JParam) (ks : List String) : Except Unit JParam :=
  match p with
  | .jdict u d => do
      let d2 ← resetAtKeysE d ks
      .ok (.jdict u d2)
  | _ => .error ()

/-- One iteration of the batch loop (journey.py lines 419-433):
`subpath_env = local_env.model_copy(deep=True)` (value semantics),
`batch_env.init_run(is_parent_path=True, parent_env=subpath_env)`,
`subpath_env.replace(batch_env)`, the recursive engine call (`runEff`),
then — guarded by `update_local_env` — `batch_env.reset_usage()` (the
overlay nodes alias the subpath environment's entries at the overlay keys)
and `local_env.merge_usage(subpath_env)`. -/
def batchIteration (fuel : Nat) (runEff : JParam → JParam)
    (localEnv batchEnv : JParam) (updateLocalEnv : Bool) : Except Unit JParam := do
  let batchEnv2 ← JParam.initRun fuel true localEnv batchEnv
  let subEnv ← replaceJ localEnv batchEnv2
  let subEnv2 := runEff subEnv
  if updateLocalEnv then do
    let subEnv3 ← resetAtKeys subEnv2 batchEnv2.topKeysJ
    JParam.mergeUsage localEnv subEnv3
  else .ok localEnv

/-- The batch loop body with the `update_local_env` flag threaded through.
As in the source, the flag is never reassigned inside the loop. -/
def runBatchLoopGo (fuel : Nat) (runEff : JParam → JParam) :
    JParam → Bool → List (String × JParam) → Except Unit (JParam × List String)
  | env, _, [] => .ok (env, [])
  | env, ule, (bid, benv) :: rest => do
      let env2 ← batchIteration fuel runEff env benv ule
      let r ← runBatchLoopGo fuel runEff env2 ule rest
      .ok (r.1, bid :: r.2)

/-- The batch loop over `batch.items()` (journey.py lines 418-433):
`update_local_env = True` before the loop; the source never sets it to
`False`, so the guarded reset-and-merge runs on every iteration. -/
def runBatchLoop (fuel : Nat) (runEff : JParam → JParam) (localEnv : JParam)
    (batch : List (String × JParam)) : Except Unit (JParam × List String) :=
  runBatchLoopGo fuel runEff localEnv true batch

/-- Mark one top-level value parameter of a dict environment as used. -/
def markKeyUsed (e : JParam) (k : String) : JParam :=
  match e with
  | .jdict u d =>
      (match d.lookupE k with
       | some (.jvalue _ v dt) => .jdict u (d.setE k (.jvalue true v dt))
       | _ => .jdict u d)
  | p => p

/-- A subpath effect for the C5 evaluation: the subpath reads its overlay
parameter `k`, and reads the parent parameter `y` only when `k = 2`. -/
def c5RunEff : JParam → JParam := fun e =>
  match e.lookupJ "k" with
  | some (.jvalue _ v _) =>
      if v = .vInt 2 then markKeyUsed (markKeyUsed e "k") "y"
      else markKeyUsed e "k"
  | _ => e

/-- C5: with parent environment `{y: 0}` and a two-element batch whose
overlays are `{k: 1}` and `{k: 2}`, where the subpath reads `y` only in
the second iteration, the loop leaves `y` marked used in the parent
environment: `update_local_env` is initialized to `True` (journey.py line
418) and never reassigned, so the usage merge runs on the second (and
every) iteration, contradicting the claimed merge-once-on-the-first-
iteration behaviour. -/
theorem C5_usage_merged_on_every_batch_iteration :
    runBatchLoop 5 c5RunEff
      (.jdict false (.cons "y" (.jvalue false (.vInt 0) none) .nil))
      [("b", .jdict false (.cons "k" (.jvalue false (.vInt 1) none) .nil)),
       ("c", .jdict false (.cons "k" (.jvalue false (.vInt 2) none) .nil))] =
      Except.ok (.jdict false (.cons "y" (.jvalue true (.vInt 0) none) .nil),
        ["b", "c"]) ∧
    (JParam.jdict false (.cons "y" (.jvalue true (.vInt 0) none) .nil)).lookupJ "y" =
      some (.jvalue true (.vInt 0) none) :=
  ⟨rfl, rfl⟩

mutual

/-- A successful `reset_usage` clears every `used` flag. -/
theorem resetUsage_allUnused :
    ∀ p q : JParam, p.resetUsage = Except.ok q → q.allUnusedB = true
  | .jvalue _ v dt, _, h => by cases h; rfl
  | .jdict _ d, q, h => by
      cases hd : d.resetUsageE with
      | error e => simp only [JParam.resetUsage, hd] at h; cases h
      | ok d2 =>
          simp only [JParam.resetUsage, hd] at h
          cases h
          have := resetUsageE_allUnused d d2 hd
          simp [JParam.allUnusedB, this]
  | .invisible _ c, q, h => by
      cases hc : c.resetUsage with
      | error e => simp only [JParam.resetUsage, hc] at h; cases h
      | ok c2 =>
          simp only [JParam.resetUsage, hc] at h
          cases h
          have := resetUsage_allUnused c c2 hc
          simp [JParam.allUnusedB, this]
  | .buffer _ n rc v d, q, h => by
      cases hd : d.resetUsageE with
      | error e => simp only [JParam.resetUsage, hd] at h; cases h
      | ok d2 =>
          simp only [JParam.resetUsage, hd] at h
          cases h
          have := resetUsageE_allUnused d d2 hd
          simp [JParam.allUnusedB, this]
  | .xbuffer _ n rc v dt d, q, h => by
      cases hd : d.resetUsageE with
      | error e => simp only [JParam.resetUsage, hd] at h; cases h
      | ok d2 =>
          simp only [JParam.resetUsage, hd] at h
          cases h
          have := resetUsageE_allUnused d d2 hd
          simp [JParam.allUnusedB, this]
  | .referNone _ l, q, h => by simp [JParam.resetUsage] at h
  | .referSome _ l t, q, h => by
      cases ht : t.resetUsage with
      | error e => simp only [JParam.resetUsage, ht] at h; cases h
      | ok t2 =>
          simp only [JParam.resetUsage, ht] at h
          cases h
          have := resetUsage_allUnused t t2 ht
          simp [JParam.allUnusedB, this]

/-- Entry-list form of `resetUsage_allUnused`. -/
theorem resetUsageE_allUnused :
    ∀ d e : JEntries, d.resetUsageE = Except.ok e → e.allUnusedE = true
  | .nil, _, h => by cases h; rfl
  | .cons k v rest, e, h => by
      cases hv : v.resetUsage with
      | error e2 => simp only [JEntries.resetUsageE, hv] at h; cases h
      | ok v2 =>
          cases hr : rest.resetUsageE with
          | error e2 => simp only [JEntries.resetUsageE, hv, hr] at h; cases h
          | ok rest2 =>
              simp only [JEntries.resetUsageE, hv, hr] at h
              cases h
              have h1 := resetUsage_allUnused v v2 hv
              have h2 := resetUsageE_allUnused rest rest2 hr
              simp [JEntries.allUnusedE, h1, h2]

end

/-- A tree with all flags cleared has its root flag cleared. -/
theorem usedOf_false_of_allUnused (m : JParam) (h : m.allUnusedB = true) :
    m.usedOf = false := by
  cases m <;> simp [JParam.allUnusedB, JParam.usedOf] at h ⊢ <;>
    first
    | exact h
    | exact h.1

/-- All present elements of a child list carry cleared flags. -/
def allUnusedO : List (Option JParam) → Bool
  | [] => true
  | none :: rest => allUnusedO rest
  | some c :: rest => c.allUnusedB && allUnusedO rest

theorem someListE_allUnusedO :
    ∀ d : JEntries, d.allUnusedE = true → allUnusedO d.someListE = true
  | .nil, _ => rfl
  | .cons k v rest, h => by
      simp only [JEntries.allUnusedE, Bool.and_eq_true] at h
      simp only [JEntries.someListE, allUnusedO, Bool.and_eq_true]
      exact ⟨h.1, someListE_allUnusedO rest h.2⟩

theorem childrenO_allUnusedO (m : JParam) (h : m.allUnusedB = true) :
    allUnusedO m.childrenO = true := by
  cases m with
  | jvalue u v dt => rfl
  | jdict u d =>
      simp only [JParam.allUnusedB, Bool.and_eq_true] at h
      exact someListE_allUnusedO d h.2
  | invisible u c =>
      simp only [JParam.allUnusedB, Bool.and_eq_true] at h
      simp only [JParam.childrenO, allUnusedO, Bool.and_eq_true]
      exact ⟨h.2, trivial⟩
  | buffer u n rc v d =>
      simp only [JParam.allUnusedB, Bool.and_eq_true] at h
      exact someListE_allUnusedO d h.2
  | xbuffer u n rc v dt d =>
      simp only [JParam.allUnusedB, Bool.and_eq_true] at h
      exact someListE_allUnusedO d h.2
  | referNone u l => rfl
  | referSome u l t =>
      simp only [JParam.allUnusedB, Bool.and_eq_true] at h
      simp only [JParam.childrenO, allUnusedO, Bool.and_eq_true]
      exact ⟨h.2, trivial⟩

mutual

/-- Merging a mirror whose flags are all cleared is the identity: the OR
leaves every flag, and hence the whole tree, unchanged. -/
theorem mergeUsage_unused_mirror :
    ∀ (a m r : JParam), a.mergeUsage m = Except.ok r → m.allUnusedB = true → r = a
  | .jvalue u v dt, m, r, h, hm => by
      simp only [JParam.mergeUsage] at h
      cases h
      simp [usedOf_false_of_allUnused m hm]
  | .jdict u d, m, r, h, hm => by
      cases hd : d.mergeUsageE m.childrenO with
      | error e => simp only [JParam.mergeUsage, hd] at h; cases h
      | ok d2 =>
          simp only [JParam.mergeUsage, hd] at h
          cases h
          have := mergeUsageE_unused_mirror d m.childrenO d2 hd
            (childrenO_allUnusedO m hm)
          simp [this, usedOf_false_of_allUnused m hm]
  | .invisible u c, m, r, h, hm => by
      cases hcs : m.childrenO with
      | nil =>
          simp only [JParam.mergeUsage, hcs] at h
          cases h
          simp [usedOf_false_of_allUnused m hm]
      | cons x rest =>
          have hall := childrenO_allUnusedO m hm
          rw [hcs] at hall
          cases x with
          | none =>
              simp only [JParam.mergeUsage, hcs] at h
              cases h
          | some mc =>
              simp only [allUnusedO, Bool.and_eq_true] at hall
              cases hc : c.mergeUsage mc with
              | error e =>
                  simp only [JParam.mergeUsage, hcs, hc, exceptErrorBind] at h
                  cases h
              | ok c2 =>
                  simp only [JParam.mergeUsage, hcs, hc, exceptOkBind] at h
                  cases h
                  have := mergeUsage_unused_mirror c mc c2 hc hall.1
                  simp [this, usedOf_false_of_allUnused m hm]
  | .buffer u n rc v d, m, r, h, hm => by
      cases hd : d.mergeUsageE m.childrenO with
      | error e => simp only [JParam.mergeUsage, hd] at h; cases h
      | ok d2 =>
          simp only [JParam.mergeUsage, hd] at h
          cases h
          have := mergeUsageE_unused_mirror d m.childrenO d2 hd
            (childrenO_allUnusedO m hm)
          simp [this, usedOf_false_of_allUnused m hm]
  | .xbuffer u n rc v dt d, m, r, h, hm => by
      cases hd : d.mergeUsageE m.childrenO with
      | error e => simp only [JParam.mergeUsage, hd] at h; cases h
      | ok d2 =>
          simp only [JParam.mergeUsage, hd] at h
          cases h
          have := mergeUsageE_unused_mirror d m.childrenO d2 hd
            (childrenO_allUnusedO m hm)
          simp [this, usedOf_false_of_allUnused m hm]
  | .referNone u l, m, r, h, hm => by
      cases hcs : m.childrenO with
      | nil =>
          simp only [JParam.mergeUsage, hcs] at h
          cases h
          simp [usedOf_false_of_allUnused m hm]
      | cons x rest =>
          simp only [JParam.mergeUsage, hcs] at h
          cases h
  | .referSome u l t, m, r, h, hm => by
      cases hcs : m.childrenO with
      | nil =>
          simp only [JParam.mergeUsage, hcs] at h
          cases h
          simp [usedOf_false_of_allUnused m hm]
      | cons x rest =>
          have hall := childrenO_allUnusedO m hm
          rw [hcs] at hall
          cases x with
          | none =>
              simp only [JParam.mergeUsage, hcs] at h
              cases h
          | some mc =>
              simp only [allUnusedO, Bool.and_eq_true] at hall
              cases hc : t.mergeUsage mc with
              | error e =>
                  simp only [JParam.mergeUsage, hcs, hc, exceptErrorBind] at h
                  cases h
              | ok t2 =>
                  simp only [JParam.mergeUsage, hcs, hc, exceptOkBind] at h
                  cases h
                  have := mergeUsage_unused_mirror t mc t2 hc hall.1
                  simp [this, usedOf_false_of_allUnused m hm]

/-- Entry-list form of `mergeUsage_unused_mirror`. -/
theorem mergeUsageE_unused_mirror :
    ∀ (d : JEntries) (ms : List (Option JParam)) (d4 : JEntries),
      d.mergeUsageE ms = Except.ok d4 → allUnusedO ms = true → d4 = d
  | .nil, ms, d4, h, _ => by cases h; rfl
  | .cons k v rest, [], d4, h, _ => by cases h; rfl
  | .cons k v rest, none :: ms, d4, h, _ => by
      simp only [JEntries.mergeUsageE] at h
      cases h
  | .cons k v rest, some m :: ms, d4, h, hm => by
      simp only [allUnusedO, Bool.and_eq_true] at hm
      cases hv : v.mergeUsage m with
      | error e => simp only [JEntries.mergeUsageE, hv] at h; cases h
      | ok v2 =>
          cases hr : rest.mergeUsageE ms with
          | error e => simp only [JEntries.mergeUsageE, hv, hr] at h; cases h
          | ok rest2 =>
              simp only [JEntries.mergeUsageE, hv, hr] at h
              cases h
              have h1 := mergeUsage_unused_mirror v m v2 hv hm.1
              have h2 := mergeUsageE_unused_mirror rest ms rest2 hr hm.2
              rw [h1, h2]

end

/-- Pointwise agreement of two entry lists: same keys in the same order,
and equal values at every key belonging to `ks`. -/
inductive AgreeOn (ks : List String) : JEntries → JEntries → Prop where
  | nil : AgreeOn ks .nil .nil
  | cons (k : String) (vA vB : JParam) (rA rB : JEntries)
      (hv : ks.contains k = true → vA = vB) (hrest : AgreeOn ks rA rB) :
      AgreeOn ks (.cons k vA rA) (.cons k vB rB)

theorem AgreeOn.keysE_eq {ks : List String} :
    ∀ {a b : JEntries}, AgreeOn ks a b → a.keysE = b.keysE := by
  intro a b h
  induction h with
  | nil => rfl
  | cons k vA vB rA rB hv hrest ih => simp [JEntries.keysE, ih]

theorem AgreeOn.lookup_eq {ks : List String} {k : String}
    (hk : ks.contains k = true) :
    ∀ {a b : JEntries}, AgreeOn ks a b → a.lookupE k = b.lookupE k := by
  intro a b h
  induction h with
  | nil => rfl
  | cons k2 vA vB rA rB hv hrest ih =>
      by_cases h2 : k2 = k
      · subst h2
        simp [JEntries.lookupE, hv hk]
      · simp [JEntries.lookupE, h2, ih]

/-- An entry list whose key list is `k :: tl` is a cons with key `k`. -/
theorem keysE_cons_destruct (e : JEntries) (k : String) (tl : List String)
    (h : e.keysE = k :: tl) :
    ∃ w erest, e = .cons k w erest ∧ JEntries.keysE erest = tl := by
  cases e with
  | nil => simp [JEntries.keysE] at h
  | cons k2 w erest =>
      simp only [JEntries.keysE, List.cons.injEq] at h
      exact ⟨w, erest, by rw [h.1], h.2⟩

/-- The batch-iteration frame property at entry level: if the mirror's keys
extend the local keys, the mirror has been reset at the keys in `ks`, and
the positional merge succeeded, then the merged entries agree with the
original local entries — identically so at every key in `ks`. -/
theorem merge_reset_agree :
    ∀ (d e : JEntries) (ks : List String) (extra : List String)
      (e3 d4 : JEntries),
      e.keysE = d.keysE ++ extra →
      resetAtKeysE e ks = Except.ok e3 →
      d.mergeUsageE e3.someListE = Except.ok d4 →
      AgreeOn ks d4 d
  | .nil, e, ks, extra, e3, d4, hk, hr, hm => by
      cases hm
      exact AgreeOn.nil
  | .cons k0 v0 rest, e, ks, extra, e3, d4, hk, hr, hm => by
      simp only [JEntries.keysE] at hk
      obtain ⟨w0, erest, he, hkrest⟩ := keysE_cons_destruct e k0 _ hk
      subst he
      simp only [resetAtKeysE] at hr
      cases hw : (if ks.contains k0 then w0.resetUsage else Except.ok w0) with
      | error e2 => rw [hw, exceptErrorBind] at hr; cases hr
      | ok w0r =>
          rw [hw, exceptOkBind] at hr
          cases hrest : resetAtKeysE erest ks with
          | error e2 => rw [hrest, exceptErrorBind] at hr; cases hr
          | ok erest3 =>
              rw [hrest, exceptOkBind] at hr
              cases hr
              simp only [JEntries.someListE, JEntries.mergeUsageE] at hm
              cases hz : v0.mergeUsage w0r with
              | error e2 => rw [hz, exceptErrorBind] at hm; cases hm
              | ok z0 =>
                  rw [hz, exceptOkBind] at hm
                  cases hm4 : rest.mergeUsageE erest3.someListE with
                  | error e2 => rw [hm4, exceptErrorBind] at hm; cases hm
                  | ok rest4 =>
                      rw [hm4, exceptOkBind] at hm
                      cases hm
                      refine AgreeOn.cons k0 z0 v0 rest4 rest (fun hin => ?_)
                        (merge_reset_agree rest erest ks extra erest3 rest4
                          hkrest hrest hm4)
                      rw [hin, if_pos rfl] at hw
                      exact mergeUsage_unused_mirror v0 w0r z0 hz
                        (resetUsage_allUnused w0 w0r hw)

/-! ## Flattened-key regions of the SQL projection -/

/-- Keys of a flat SQL dict. -/
def keysSL (l : List (String × SqlVal)) : List String := l.map Prod.fst

/-- The string contains no dot. -/
def dotFreeB (s : String) : Bool := !(s.toList.contains '.')

/-- `dk` lies in the flattened-key region of the top-level key `k`: it is
`k` itself or starts with `k` followed by a dot. -/
def keyHeaded (k dk : String) : Prop :=
  dk = k ∨ (k.toList ++ ['.']) <+: dk.toList

/-- `dk` lies in the region of some key in `ks`. -/
def overlayHeadedP (ks : List String) (dk : String) : Prop :=
  ∃ k, k ∈ ks ∧ keyHeaded k dk

theorem mem_keysSL_setSL (k : String) (v : SqlVal) (dk : String) :
    ∀ acc, dk ∈ keysSL (setSL acc k v) ↔ dk ∈ keysSL acc ∨ dk = k
  | [] => by simp [setSL, keysSL]
  | (k2, v2) :: rest => by
      by_cases h : k2 = k
      · subst h
        simp [setSL, keysSL]
        tauto
      · simp only [setSL, if_neg h, keysSL, List.map_cons, List.mem_cons]
        rw [show List.map Prod.fst (setSL rest k v) = keysSL (setSL rest k v) from rfl,
          mem_keysSL_setSL k v dk rest]
        simp [keysSL]
        tauto

theorem mem_keysSL_unionSL (dk : String) :
    ∀ (l acc : List (String × SqlVal)),
      dk ∈ keysSL (unionSL acc l) ↔ dk ∈ keysSL acc ∨ dk ∈ keysSL l
  | [], acc => by simp [unionSL, keysSL]
  | (k, v) :: rest, acc => by
      simp only [unionSL]
      rw [mem_keysSL_unionSL dk rest (setSL acc k v), mem_keysSL_setSL k v dk acc]
      simp [keysSL]
      tauto

/-- Two dot-free strings followed by a dot separator can only be prefixes
of one another when they are equal. -/
theorem dotsep_prefix_inj :
    ∀ (x y s : List Char), '.' ∉ x → '.' ∉ y →
      (x ++ ['.']) <+: (y ++ '.' :: s) → x = y
  | [], [], _, _, _, _ => rfl
  | [], c :: ys, s, _hx, hy, h => by
      simp only [List.nil_append, List.cons_append] at h
      rw [List.cons_prefix_cons] at h
      refine absurd ?_ hy
      rw [← h.1]
      exact List.mem_cons_self _ _
  | c :: xs, [], s, hx, _hy, h => by
      simp only [List.cons_append, List.nil_append] at h
      rw [List.cons_prefix_cons] at h
      refine absurd ?_ hx
      rw [← h.1]
      exact List.mem_cons_self _ _
  | c :: xs, c2 :: ys, s, hx, hy, h => by
      simp only [List.cons_append] at h
      rw [List.cons_prefix_cons] at h
      have hx2 : '.' ∉ xs := fun hm => hx (List.mem_cons_of_mem c hm)
      have hy2 : '.' ∉ ys := fun hm => hy (List.mem_cons_of_mem c2 hm)
      rw [h.1, dotsep_prefix_inj xs ys s hx2 hy2 h.2]

theorem string_toList_inj (a b : String) (h : a.toList = b.toList) : a = b := by
  cases a; cases b; exact congrArg String.mk h

theorem not_mem_dot_of_dotFree (s : String) (h : dotFreeB s = true) :
    ('.' : Char) ∉ s.toList := by
  simp [dotFreeB] at h
  exact h

/-- A dot-free key `j ≠ k` is not in `k`'s region. -/
theorem not_keyHeaded_same_level (k j : String) (_hk : dotFreeB k = true)
    (hj : dotFreeB j = true) (hne : j ≠ k) : ¬ keyHeaded k j := by
  intro h
  cases h with
  | inl he => exact hne he
  | inr hp => exact not_mem_dot_of_dotFree j hj (hp.subset (by simp))

/-- A dotted key under the dot-free top-level key `j ≠ k` is not in `k`'s
region when `k` is dot-free. -/
theorem not_keyHeaded_dotted (k j s : String) (hk : dotFreeB k = true)
    (hj : dotFreeB j = true) (hne : j ≠ k) : ¬ keyHeaded k (j ++ "." ++ s) := by
  have habc : (j ++ "." ++ s).toList = j.toList ++ '.' :: s.toList := by
    show ((j ++ ".") ++ s).data = j.data ++ '.' :: s.data
    rw [String.data_append, String.data_append, List.append_assoc]
    rfl
  intro h
  cases h with
  | inl he =>
      refine not_mem_dot_of_dotFree k hk ?_
      rw [← he, habc]
      simp
  | inr hp =>
      rw [habc] at hp
      have := dotsep_prefix_inj k.toList j.toList s.toList
        (not_mem_dot_of_dotFree k hk) (not_mem_dot_of_dotFree j hj) hp
      exact hne (string_toList_inj k j this).symm

/-- A key in the region of `ks` is not among the dotted keys contributed by
a dict-valued entry under a top-level key `k ∉ ks`. -/
theorem headed_not_in_mapped (ks : List String) (k : String)
    (hkne : ∀ k2 ∈ ks, k2 ≠ k) (hks : ∀ k2 ∈ ks, dotFreeB k2 = true)
    (hkdf : dotFreeB k = true) (l : List (String × SqlVal)) (dk : String)
    (hdk : overlayHeadedP ks dk) :
    dk ∉ keysSL (l.map (fun p => (k ++ "." ++ p.1, p.2))) := by
  intro hm
  simp only [keysSL, List.map_map, List.mem_map] at hm
  obtain ⟨p, _hp, he⟩ := hm
  obtain ⟨k2, hk2, hh⟩ := hdk
  rw [← he] at hh
  exact not_keyHeaded_dotted k2 k p.1 (hks k2 hk2) hkdf (Ne.symm (hkne k2 hk2)) hh

/-- A key in the region of `ks` differs from any top-level key `k ∉ ks`. -/
theorem headed_ne_key (ks : List String) (k : String)
    (hkne : ∀ k2 ∈ ks, k2 ≠ k) (hks : ∀ k2 ∈ ks, dotFreeB k2 = true)
    (hkdf : dotFreeB k = true) (dk : String) (hdk : overlayHeadedP ks dk) :
    dk ≠ k := by
  intro he
  subst he
  obtain ⟨k2, hk2, hh⟩ := hdk
  exact not_keyHeaded_same_level k2 dk (hks k2 hk2) hkdf (Ne.symm (hkne k2 hk2)) hh

/-- Processing one dict entry whose key is outside `ks` does not change
which keys of the `ks` region are present in the accumulated SQL dict. -/
theorem getSqlDataE_cons_unheaded (it : Interp) (ks : List String)
    (hks : ∀ k2 ∈ ks, dotFreeB k2 = true) (k : String)
    (hkne : ∀ k2 ∈ ks, k2 ≠ k) (hkdf : dotFreeB k = true) (v : JParam)
    (acc : List (String × SqlVal)) (rest : JEntries)
    (res : List (String × SqlVal))
    (h : JEntries.getSqlDataE it false false false acc (.cons k v rest) =
      Except.ok res) :
    ∃ acc2, JEntries.getSqlDataE it false false false acc2 rest = Except.ok res ∧
      ∀ dk, overlayHeadedP ks dk → (dk ∈ keysSL acc2 ↔ dk ∈ keysSL acc) := by
  simp only [JEntries.getSqlDataE, Bool.or_false] at h
  cases hu : v.usedOf with
  | false =>
      rw [hu] at h
      simp only [Bool.false_eq_true, if_false] at h
      exact ⟨acc, h, fun dk _ => Iff.rfl⟩
  | true =>
      rw [hu] at h
      simp only [if_true] at h
      cases hr : v.getSqlData it false false false with
      | error e => rw [hr, exceptErrorBind] at h; cases h
      | ok r =>
          rw [hr, exceptOkBind] at h
          cases r with
          | entries l =>
              refine ⟨_, h, fun dk hdk => ?_⟩
              rw [mem_keysSL_unionSL]
              simp [headed_not_in_mapped ks k hkne hks hkdf l dk hdk]
          | prim s =>
              refine ⟨_, h, fun dk hdk => ?_⟩
              rw [mem_keysSL_setSL]
              simp [headed_ne_key ks k hkne hks hkdf dk hdk]
          | invisibleMark => exact ⟨acc, h, fun dk _ => Iff.rfl⟩

/-- Correspondence of the SQL projection on entry lists that agree at the
keys in `ks`: the presence of any key in the `ks` region is the same on
both sides. -/
theorem projAgree (it : Interp) (ks : List String)
    (hks : ∀ k2 ∈ ks, dotFreeB k2 = true) :
    ∀ {dA dB : JEntries}, AgreeOn ks dA dB →
      (∀ k2 ∈ dA.keysE, dotFreeB k2 = true) →
      ∀ (accA accB : List (String × SqlVal)),
      (∀ dk, overlayHeadedP ks dk → (dk ∈ keysSL accA ↔ dk ∈ keysSL accB)) →
      ∀ (resA resB : List (String × SqlVal)),
      JEntries.getSqlDataE it false false false accA dA = Except.ok resA →
      JEntries.getSqlDataE it false false false accB dB = Except.ok resB →
      ∀ dk, overlayHeadedP ks dk → (dk ∈ keysSL resA ↔ dk ∈ keysSL resB) := by
  intro dA dB hag
  induction hag with
  | nil =>
      intro _ accA accB hacc resA resB hA hB dk hdk
      cases hA; cases hB
      exact hacc dk hdk
  | cons k vA vB rA rB hv hrest ih =>
      intro hdots accA accB hacc resA resB hA hB dk hdk
      have hdotsr : ∀ k2 ∈ rA.keysE, dotFreeB k2 = true := fun k2 hm =>
        hdots k2 (by simp [JEntries.keysE]; right; exact hm)
      by_cases hk : ks.contains k = true
      · have hvv := hv hk
        subst hvv
        simp only [JEntries.getSqlDataE, Bool.or_false] at hA hB
        cases hu : vA.usedOf with
        | false =>
            rw [hu] at hA hB
            simp only [Bool.false_eq_true, if_false] at hA hB
            exact ih hdotsr accA accB hacc resA resB hA hB dk hdk
        | true =>
            rw [hu] at hA hB
            simp only [if_true] at hA hB
            cases hr : vA.getSqlData it false false false with
            | error e =>
                rw [hr, exceptErrorBind] at hA
                cases hA
            | ok r =>
                rw [hr, exceptOkBind] at hA hB
                cases r with
                | entries l =>
                    refine ih hdotsr _ _ (fun dk2 hdk2 => ?_) resA resB hA hB dk hdk
                    rw [mem_keysSL_unionSL, mem_keysSL_unionSL]
                    have := hacc dk2 hdk2
                    tauto
                | prim s =>
                    refine ih hdotsr _ _ (fun dk2 hdk2 => ?_) resA resB hA hB dk hdk
                    rw [mem_keysSL_setSL, mem_keysSL_setSL]
                    have := hacc dk2 hdk2
                    tauto
                | invisibleMark =>
                    exact ih hdotsr accA accB hacc resA resB hA hB dk hdk
      · have hkf : List.contains ks k = false := by
          cases hcf : List.contains ks k with
          | false => rfl
          | true => exact absurd hcf hk
        have hkne : ∀ k2 ∈ ks, k2 ≠ k := by
          intro k2 hm he
          subst he
          simp at hkf
          exact hkf hm
        have hkdf : dotFreeB k = true := hdots k (by simp [JEntries.keysE])
        obtain ⟨accA2, hA2, hinvA⟩ := getSqlDataE_cons_unheaded it ks hks k hkne
          hkdf vA accA rA resA hA
        obtain ⟨accB2, hB2, hinvB⟩ := getSqlDataE_cons_unheaded it ks hks k hkne
          hkdf vB accB rB resB hB
        refine ih hdotsr accA2 accB2 (fun dk2 hdk2 => ?_) resA resB hA2 hB2 dk hdk
        exact (hinvA dk2 hdk2).trans ((hacc dk2 hdk2).trans (hinvB dk2 hdk2).symm)

theorem setE_keysE_exists (k : String) (v : JParam) :
    ∀ d : JEntries, ∃ extra, (d.setE k v).keysE = d.keysE ++ extra
  | .nil => ⟨[k], rfl⟩
  | .cons k2 v2 rest => by
      by_cases h : k2 = k
      · exact ⟨[], by simp [JEntries.setE, h, JEntries.keysE]⟩
      · obtain ⟨extra, he⟩ := setE_keysE_exists k v rest
        exact ⟨extra, by simp [JEntries.setE, h, JEntries.keysE, he]⟩

theorem updateE_keysE_exists :
    ∀ (od d : JEntries), ∃ extra, (d.updateE od).keysE = d.keysE ++ extra
  | .nil, d => ⟨[], by simp [JEntries.updateE]⟩
  | .cons k v rest, d => by
      obtain ⟨e1, h1⟩ := setE_keysE_exists k v d
      obtain ⟨e2, h2⟩ := updateE_keysE_exists rest (d.setE k v)
      refine ⟨e1 ++ e2, ?_⟩
      show ((d.setE k v).updateE rest).keysE = d.keysE ++ (e1 ++ e2)
      rw [h2, h1, List.append_assoc]

theorem normE_keysE : ∀ d : JEntries, d.normE.keysE = d.keysE
  | .nil => rfl
  | .cons k v rest => by simp [JEntries.normE, JEntries.keysE, normE_keysE rest]

theorem normJ_jdict_inv (p : JParam) (ne : JEntries) (h : p.normJ = .jdict false ne) :
    ∃ u2 e2, p = .jdict u2 e2 ∧ JEntries.normE e2 = ne := by
  cases p with
  | jdict u d =>
      simp only [JParam.normJ, JParam.jdict.injEq, true_and] at h
      exact ⟨u, d, rfl, h⟩
  | jvalue u v dt => simp [JParam.normJ] at h
  | invisible u c => simp [JParam.normJ] at h
  | buffer u n rc v d => simp [JParam.normJ] at h
  | xbuffer u n rc v dt d => simp [JParam.normJ] at h
  | referNone u l => simp [JParam.normJ] at h
  | referSome u l t => simp [JParam.normJ] at h

theorem initRunE_keysE :
    ∀ (fuel : Nat) (ipp : Bool) (root : JParam) (d d2 : JEntries),
      JEntries.initRunE fuel ipp root d = Except.ok d2 → d2.keysE = d.keysE
  | 0, _, _, _, _, h => by simp [JEntries.initRunE] at h
  | Nat.succ _, _, _, .nil, _, h => by cases h; rfl
  | Nat.succ fuel, ipp, root, .cons k v rest, d2, h => by
      simp only [JEntries.initRunE] at h
      cases hv : JParam.initRun fuel ipp root v with
      | error e => rw [hv, exceptErrorBind] at h; cases h
      | ok v2 =>
          rw [hv, exceptOkBind] at h
          cases hr : JEntries.initRunE fuel ipp root rest with
          | error e => rw [hr, exceptErrorBind] at h; cases h
          | ok rest2 =>
              rw [hr, exceptOkBind] at h
              cases h
              simp [JEntries.keysE, initRunE_keysE fuel ipp root rest rest2 hr]

theorem topKeysJ_dataOf (p : JParam) (od : JEntries) (h : p.dataOf = some od) :
    p.topKeysJ = od.keysE := by
  cases p <;> simp [JParam.dataOf] at h <;> simp [JParam.topKeysJ, h]

theorem initRun_topKeys (fuel : Nat) (ipp : Bool) (root p q : JParam)
    (h : JParam.initRun fuel ipp root p = Except.ok q) :
    q.topKeysJ = p.topKeysJ := by
  cases fuel with
  | zero => simp [JParam.initRun] at h
  | succ fuel =>
      cases p with
      | jvalue u v dt =>
          simp only [JParam.initRun] at h
          cases h
          rfl
      | jdict u d =>
          simp only [JParam.initRun] at h
          cases hd : JEntries.initRunE fuel ipp root d with
          | error e => rw [hd, exceptErrorBind] at h; cases h
          | ok d2 =>
              rw [hd, exceptOkBind] at h
              cases h
              simp [JParam.topKeysJ, initRunE_keysE fuel ipp root d d2 hd]
      | invisible u c =>
          simp only [JParam.initRun] at h
          cases hc : JParam.initRun fuel ipp root c with
          | error e => rw [hc, exceptErrorBind] at h; cases h
          | ok c2 =>
              rw [hc, exceptOkBind] at h
              cases h
              rfl
      | buffer u n rc v d =>
          simp only [JParam.initRun] at h
          cases hd : JEntries.initRunE fuel ipp root d with
          | error e => rw [hd, exceptErrorBind] at h; cases h
          | ok d2 =>
              rw [hd, exceptOkBind] at h
              cases h
              simp [JParam.topKeysJ, initRunE_keysE fuel ipp root d d2 hd]
      | xbuffer u n rc v dt d =>
          simp only [JParam.initRun] at h
          cases hd : JEntries.initRunE fuel ipp root d with
          | error e => rw [hd, exceptErrorBind] at h; cases h
          | ok d2 =>
              rw [hd, exceptOkBind] at h
              cases h
              simp [JParam.topKeysJ, initRunE_keysE fuel ipp root d d2 hd]
      | referNone u l =>
          simp only [JParam.initRun] at h
          cases ht : resolveRefGo root l with
          | error e => rw [ht, exceptErrorBind] at h; cases h
          | ok t =>
              rw [ht, exceptOkBind] at h
              cases ht2 : JParam.initRun fuel ipp root t with
              | error e => rw [ht2, exceptErrorBind] at h; cases h
              | ok t2 =>
                  rw [ht2, exceptOkBind] at h
                  cases h
                  rfl
      | referSome u l t0 =>
          simp only [JParam.initRun] at h
          cases ht : resolveRefGo root l with
          | error e => rw [ht, exceptErrorBind] at h; cases h
          | ok t =>
              rw [ht, exceptOkBind] at h
              cases ht2 : JParam.initRun fuel ipp root t with
              | error e => rw [ht2, exceptErrorBind] at h; cases h
              | ok t2 =>
                  rw [ht2, exceptOkBind] at h
                  cases h
                  rfl

/-- C1: batch overlay usage exclusion.  For any parent environment, any
batch overlay, and any subpath run effect that preserves the environment's
structural skeleton, a successful batch iteration (overlay `init_run`,
`replace`, the recursive run, overlay usage reset, usage merge) leaves the
parent environment with (i) exactly its original top-level keys — overlay
keys that are new never enter the parent; (ii) the overlay-keyed entries
bit-for-bit unchanged, flags included — overlay writes never mark the
parent's parameters used; and therefore (iii), when the top-level keys are
dot-free, the presence of any overlay-headed dotted key in the parent's
persisted fingerprint (the `get_sql_data(show_unused=False,
show_invisible=False)` projection) is exactly what it was before the
iteration: only parameters the parent itself (or a non-overlay merge-back)
used can put an overlay-named key into the fingerprint. -/
theorem C1_overlay_usage_exclusion
    (fuel : Nat) (runEff : JParam → JParam) (localEnv overlay out : JParam)
    (hshape : ∀ e, (runEff e).normJ = e.normJ)
    (h : batchIteration fuel runEff localEnv overlay true = Except.ok out) :
    out.topKeysJ = localEnv.topKeysJ ∧
    (∀ k, overlay.topKeysJ.contains k = true →
      out.lookupJ k = localEnv.lookupJ k) ∧
    ((∀ k2 ∈ localEnv.topKeysJ, dotFreeB k2 = true) →
     (∀ k2 ∈ overlay.topKeysJ, dotFreeB k2 = true) →
     ∀ (it : Interp) (outSql locSql : List (String × SqlVal)),
       envSqlData it false false out = Except.ok outSql →
       envSqlData it false false localEnv = Except.ok locSql →
       ∀ dk, overlayHeadedP overlay.topKeysJ dk →
         (dk ∈ keysSL outSql ↔ dk ∈ keysSL locSql)) := by
  simp only [batchIteration] at h
  cases h1 : JParam.initRun fuel true localEnv overlay with
  | error e => rw [h1, exceptErrorBind] at h; cases h
  | ok be2 =>
      rw [h1, exceptOkBind] at h
      cases h2 : replaceJ localEnv be2 with
      | error e => rw [h2, exceptErrorBind] at h; cases h
      | ok subEnv =>
          rw [h2, exceptOkBind] at h
          replace h : (do
            let subEnv3 ← resetAtKeys (runEff subEnv) be2.topKeysJ
            JParam.mergeUsage localEnv subEnv3) = Except.ok out := h
          cases h3 : resetAtKeys (runEff subEnv) be2.topKeysJ with
          | error e => rw [h3, exceptErrorBind] at h; cases h
          | ok subEnv3 =>
              rw [h3, exceptOkBind] at h
              -- replaceJ succeeded: the parent is a dict and the overlay is dict-like
              cases localEnv with
              | jvalue u v dt => simp [replaceJ] at h2
              | invisible u c => simp [replaceJ] at h2
              | buffer u n rc v d => simp [replaceJ] at h2
              | xbuffer u n rc v dt d => simp [replaceJ] at h2
              | referNone u l => simp [replaceJ] at h2
              | referSome u l t => simp [replaceJ] at h2
              | jdict u d =>
                  simp only [replaceJ] at h2
                  cases hod : be2.dataOf with
                  | none => rw [hod] at h2; cases h2
                  | some od =>
                      rw [hod] at h2
                      cases h2
                      -- the run effect keeps the skeleton: still a dict with
                      -- the replaced keys
                      have hn := hshape (.jdict u (d.updateE (mergeDtypesE od d)))
                      obtain ⟨u2, e2, hre, hnorm⟩ := normJ_jdict_inv _ _ hn
                      have hkeys2 : e2.keysE = (d.updateE (mergeDtypesE od d)).keysE := by
                        have := congrArg JEntries.keysE hnorm
                        rwa [normE_keysE, normE_keysE] at this
                      rw [hre] at h3
                      simp only [resetAtKeys] at h3
                      cases h3e : resetAtKeysE e2 be2.topKeysJ with
                      | error e => rw [h3e, exceptErrorBind] at h3; cases h3
                      | ok e3 =>
                          rw [h3e, exceptOkBind] at h3
                          cases h3
                          simp only [JParam.mergeUsage, JParam.childrenO] at h
                          cases h4e : d.mergeUsageE e3.someListE with
                          | error e => rw [h4e, exceptErrorBind] at h; cases h
                          | ok d4 =>
                              rw [h4e, exceptOkBind] at h
                              cases h
                              obtain ⟨extra, hupd⟩ :=
                                updateE_keysE_exists (mergeDtypesE od d) d
                              have hkeys3 : e2.keysE = d.keysE ++ extra :=
                                hkeys2.trans hupd
                              have hagree := merge_reset_agree d e2 be2.topKeysJ
                                extra e3 d4 hkeys3 h3e h4e
                              have hks_eq : be2.topKeysJ = overlay.topKeysJ :=
                                initRun_topKeys fuel true (.jdict u d) overlay be2 h1
                              refine ⟨?_, ?_, ?_⟩
                              · simpa [JParam.topKeysJ] using hagree.keysE_eq
                              · intro k hk
                                rw [← hks_eq] at hk
                                simpa [JParam.lookupJ] using hagree.lookup_eq hk
                              · intro hdl hdo it outSql locSql hOut hLoc dk hdk
                                rw [← hks_eq] at hdk hdo
                                simp only [envSqlData, JParam.getSqlData] at hOut hLoc
                                cases hPA : JEntries.getSqlDataE it false false
                                    false [] d4 with
                                | error e =>
                                    rw [hPA, exceptErrorBind] at hOut; cases hOut
                                | ok lA =>
                                    rw [hPA, exceptOkBind] at hOut
                                    cases hOut
                                    cases hPB : JEntries.getSqlDataE it false false
                                        false [] d with
                                    | error e =>
                                        rw [hPB, exceptErrorBind] at hLoc; cases hLoc
                                    | ok lB =>
                                        rw [hPB, exceptOkBind] at hLoc
                                        cases hLoc
                                        have hdots : ∀ k2 ∈ d4.keysE,
                                            dotFreeB k2 = true := by
                                          intro k2 hm
                                          refine hdl k2 ?_
                                          have hke := hagree.keysE_eq
                                          simp only [JParam.topKeysJ]
                                          rw [← hke]
                                          exact hm
                                        exact projAgree it be2.topKeysJ hdo hagree
                                          hdots [] [] (fun _ _ => Iff.rfl) _ _
                                          hPA hPB dk hdk

/-- C1 witness: parent `{x: 3 (used), k: 9}`, overlay `{k: 1, z: 7}`
(replacing `k`, adding `z`), an effect-free subpath run.  The iteration
returns the parent unchanged; the overlay keys `k`, `z` stay out of the
fingerprint keys, which evaluate to `["x"]` on both sides. -/
theorem C1_witness :
    batchIteration 5 (fun e => e)
      (.jdict false (.cons "x" (.jvalue true (.vInt 3) none)
        (.cons "k" (.jvalue false (.vInt 9) none) .nil)))
      (.jdict false (.cons "k" (.jvalue false (.vInt 1) none)
        (.cons "z" (.jvalue false (.vInt 7) none) .nil))) true =
      Except.ok (.jdict false (.cons "x" (.jvalue true (.vInt 3) none)
        (.cons "k" (.jvalue false (.vInt 9) none) .nil))) ∧
    (JParam.jdict false (.cons "x" (.jvalue true (.vInt 3) none)
        (.cons "k" (.jvalue false (.vInt 9) none) .nil))).lookupJ "k" =
      (JParam.jdict false (.cons "x" (.jvalue true (.vInt 3) none)
        (.cons "k" (.jvalue false (.vInt 9) none) .nil))).lookupJ "k" ∧
    envSqlData constInterp false false
      (.jdict false (.cons "x" (.jvalue true (.vInt 3) none)
        (.cons "k" (.jvalue false (.vInt 9) none) .nil))) =
      Except.ok [("x", .sInt 3)] ∧
    ("k" ∈ keysSL [("x", SqlVal.sInt 3)] ↔ "k" ∈ keysSL [("x", SqlVal.sInt 3)]) := by
  refine ⟨rfl, ?_, rfl, ?_⟩
  · exact (C1_overlay_usage_exclusion 5 (fun e => e)
      (.jdict false (.cons "x" (.jvalue true (.vInt 3) none)
        (.cons "k" (.jvalue false (.vInt 9) none) .nil)))
      (.jdict false (.cons "k" (.jvalue false (.vInt 1) none)
        (.cons "z" (.jvalue false (.vInt 7) none) .nil)))
      (.jdict false (.cons "x" (.jvalue true (.vInt 3) none)
        (.cons "k" (.jvalue false (.vInt 9) none) .nil)))
      (fun _ => rfl) rfl).2.1 "k" rfl
  · exact (C1_overlay_usage_exclusion 5 (fun e => e)
      (.jdict false (.cons "x" (.jvalue true (.vInt 3) none)
        (.cons "k" (.jvalue false (.vInt 9) none) .nil)))
      (.jdict false (.cons "k" (.jvalue false (.vInt 1) none)
        (.cons "z" (.jvalue false (.vInt 7) none) .nil)))
      (.jdict false (.cons "x" (.jvalue true (.vInt 3) none)
        (.cons "k" (.jvalue false (.vInt 9) none) .nil)))
      (fun _ => rfl) rfl).2.2 (by decide) (by decide) constInterp
      [("x", .sInt 3)] [("x", .sInt 3)] rfl rfl "k" ⟨"k", by decide, Or.inl rfl⟩

end JMaps
